import Mathlib

/-!
Verification of the permission aggregation and CSV schema-projection engine of
a Tableau permission exporter.  The Python source consists of a grantee merge
engine (get_project_permissions), a default-permission fetch wrapper
(_get_default_permissions) and a CSV projector (export_permissions_to_csv).

Python dictionaries are modelled as association lists with an insert operation
that updates in place (keeping the position of an existing key) and appends new
keys at the end, exactly like CPython insertion-ordered dicts.  Python sets are
modelled as duplicate-free lists built by insert-if-absent; the only
order-sensitive uses of a set in the source are sorted(), modelled by insertion
sort under the code-point lexicographic order that Python sorted() uses on
strings, and first-element extraction from a set, whose hash-dependent order is
modelled relationally (any member may be produced).
-/

section AssocDefs

variable {K V : Type} [DecidableEq K]

/-- Lookup in an association list modelling a Python dict (first match). -/
def dlookup : List (K × V) → K → Option V
  | [], _ => none
  | p :: t, k => if p.1 = k then some p.2 else dlookup t k

/-- Python dict assignment d[k] = v: update the existing entry in place, or
append a new entry at the end. -/
def dinsert : List (K × V) → K → V → List (K × V)
  | [], k, v => [(k, v)]
  | p :: t, k, v => if p.1 = k then (k, v) :: t else p :: dinsert t k v

/-- Fold a list of assignments into a dict, later assignments overwriting. -/
def dinsertAll (m : List (K × V)) (l : List (K × V)) : List (K × V) :=
  l.foldl (fun acc p => dinsert acc p.1 p.2) m

/-- The value assigned by the last matching entry of an assignment list. -/
def lastVal : List (K × V) → K → Option V
  | [], _ => none
  | p :: t, k =>
    match lastVal t k with
    | some v => some v
    | none => if p.1 = k then some p.2 else none

/-- Python set.add: append the element if it is not already present. -/
def addKey (l : List K) (k : K) : List K :=
  if k ∈ l then l else l ++ [k]

/-- Whether some key of the dict satisfies a predicate. -/
def keyAny (m : List (K × V)) (p : K → Bool) : Bool :=
  m.any fun e => p e.1

/-- The first defined of two optional values. -/
def ofirst (a b : Option V) : Option V :=
  match a with
  | some v => some v
  | none => b

end AssocDefs

section StringOrderDefs

/-- Code-point lexicographic comparison of character lists, mirroring how
Python sorted() compares strings. -/
def lexLeB : List Char → List Char → Bool
  | [], _ => true
  | _ :: _, [] => false
  | a :: as, b :: bs =>
    if a.toNat < b.toNat then true
    else if b.toNat < a.toNat then false
    else lexLeB as bs

/-- Lexicographic string comparison by code points. -/
def strLeB (a b : String) : Bool := lexLeB a.toList b.toList

/-- The ordering relation used to model Python sorted() on strings. -/
def strLe (a b : String) : Prop := strLeB a b = true

instance : DecidableRel strLe := fun a b => by unfold strLe; infer_instance

/-- Character-list prefix test, kernel-computable. -/
def listPreB : List Char → List Char → Bool
  | [], _ => true
  | _ :: _, [] => false
  | a :: as, b :: bs => a == b && listPreB as bs

/-- Model of the Python str.startswith test used by the merge. -/
def strStartsB (s pre : String) : Bool := listPreB pre.toList s.toList

end StringOrderDefs

section MergeEngineDefs

/-- One parsed permission rule: a grantee (user or group, with an opaque id)
plus the capabilities of that rule, as parsed by _parse_permissions. -/
structure PermRule where
  granteeType : String
  granteeId : String
  capabilities : List (String × String)
  deriving DecidableEq

/-- The grantee key used by the merge: (grantee_type, grantee_id). -/
def gkeyOf (r : PermRule) : String × String := (r.granteeType, r.granteeId)

/-- project_templates from get_project_permissions. -/
def projectTemplates : List (String × List (String × String)) :=
  [("InheritedProjectLeader", [("Read", "Allow"), ("Write", "Allow")])]

/-- workbook_templates from get_project_permissions. -/
def workbookTemplates : List (String × List (String × String)) :=
  [("InheritedProjectLeader",
    [("workbook_Read", "Allow"), ("workbook_Filter", "Allow"), ("workbook_ViewComments", "Allow"),
     ("workbook_AddComment", "Allow"), ("workbook_ExportImage", "Allow"), ("workbook_ExportData", "Allow"),
     ("workbook_ShareView", "Allow"), ("workbook_ViewUnderlyingData", "Allow"), ("workbook_WebAuthoring", "Allow"),
     ("workbook_RunExplainData", "Allow"), ("workbook_ExportXml", "Allow"), ("workbook_Write", "Allow"),
     ("workbook_ChangeHierarchy", "Allow"), ("workbook_Delete", "Allow"), ("workbook_ChangePermissions", "Allow"),
     ("workbook_ExtractRefresh", "Allow")])]

/-- datasource_templates from get_project_permissions. -/
def datasourceTemplates : List (String × List (String × String)) :=
  [("InheritedProjectLeader",
    [("datasource_Read", "Allow"), ("datasource_Connect", "Allow"), ("datasource_ExportXml", "Allow"),
     ("datasource_Write", "Allow"), ("datasource_SaveAs", "Allow"), ("datasource_VizqlDataApiAccess", "Allow"),
     ("datasource_PulseMetricDefine", "Allow"), ("datasource_ChangeHierarchy", "Allow"),
     ("datasource_Delete", "Allow"), ("datasource_ChangePermissions", "Allow"), ("datasource_ExtractRefresh", "Allow")])]

/-- flow_templates from get_project_permissions. -/
def flowTemplates : List (String × List (String × String)) :=
  [("InheritedProjectLeader",
    [("flow_Read", "Allow"), ("flow_ExportXml", "Allow"), ("flow_Execute", "Allow"),
     ("flow_Write", "Allow"), ("flow_WebAuthoringForFlows", "Allow"), ("flow_ChangeHierarchy", "Allow"),
     ("flow_Delete", "Allow"), ("flow_ChangePermissions", "Allow")])]

/-- virtualconnection_templates from get_project_permissions.  The Write
capability has no API endpoint and is marked with a sentinel mode. -/
def virtualconnectionTemplates : List (String × List (String × String)) :=
  [("InheritedProjectLeader",
    [("virtualconnection_Read", "Allow"), ("virtualconnection_Connect", "Allow"),
     ("virtualconnection_Write", "No API Endpoint"), ("virtualconnection_ChangeHierarchy", "Allow"),
     ("virtualconnection_Delete", "Allow"), ("virtualconnection_ChangePermissions", "Allow")])]

/-- database_templates from get_project_permissions. -/
def databaseTemplates : List (String × List (String × String)) :=
  [("InheritedProjectLeader",
    [("database_Read", "Allow"), ("database_Write", "Allow"), ("database_ChangeHierarchy", "Allow"),
     ("database_ChangePermissions", "Allow")])]

/-- table_templates from get_project_permissions. -/
def tableTemplates : List (String × List (String × String)) :=
  [("InheritedProjectLeader",
    [("table_Read", "Allow"), ("table_Write", "Allow"), ("table_ChangeHierarchy", "Allow"),
     ("table_ChangePermissions", "Allow")])]

/-- The capabilities injected when a project-level capability name matches a
template: the project expansion followed by the expansions of every nested
content-kind, in the order the source expands them (workbook, datasource,
flow, virtualconnection, database, table).  Every template table has exactly
the key InheritedProjectLeader, so indexing the remaining tables by a name
that is a key of project_templates never fails in the source. -/
def templateExpansionFor (name : String) : List (String × String) :=
  ((dlookup projectTemplates name).getD []) ++
  ((dlookup workbookTemplates name).getD []) ++
  ((dlookup datasourceTemplates name).getD []) ++
  ((dlookup flowTemplates name).getD []) ++
  ((dlookup virtualconnectionTemplates name).getD []) ++
  ((dlookup databaseTemplates name).getD []) ++
  ((dlookup tableTemplates name).getD [])

/-- The full fixed expansion set of the InheritedProjectLeader template across
the project level and every nested content-kind. -/
def fullExpansionList : List (String × String) := templateExpansionFor "InheritedProjectLeader"

/-- Accumulator state of the merge: the grantee records (an insertion-ordered
dict from grantee key to its capabilities dict), the set of grantees that had
a template applied, and the set of grantees seen in the virtual-connection
default-permission source. -/
structure MergeState where
  records : List ((String × String) × List (String × String))
  templated : List (String × String)
  vcs : List (String × String)
  deriving DecidableEq

/-- The empty merge state. -/
def initState : MergeState := ⟨[], [], []⟩

/-- One capability step of the project-level source: a name that is a key of
project_templates injects the expansions of every template table,
overwriting; any other capability is stored under its own (un-namespaced)
name. -/
def projCapStep (a : List (String × String)) (c : String × String) : List (String × String) :=
  if (dlookup projectTemplates c.1).isSome then dinsertAll a (templateExpansionFor c.1)
  else dinsert a c.1 c.2

/-- The marking step of the project-level source: a template name adds the
grantee to the template-applied set. -/
def markStep (k : String × String) (t : List (String × String)) (c : String × String) :
    List (String × String) :=
  if (dlookup projectTemplates c.1).isSome then addKey t k else t

/-- The capabilities of one project-level rule folded into a capability dict. -/
def applyProjCaps (caps : List (String × String)) (l : List (String × String)) :
    List (String × String) :=
  l.foldl projCapStep caps

/-- The joint fold over one project-level rule's capabilities: the grantee's
capability dict and the template-applied set evolve together, as in the
source's single loop. -/
def projFoldRes (st : MergeState) (r : PermRule) :
    List (String × String) × List (String × String) :=
  r.capabilities.foldl
    (fun p c => (projCapStep p.1 c, markStep (gkeyOf r) p.2 c))
    ((dlookup st.records (gkeyOf r)).getD [], st.templated)

/-- Processing of one project-level rule (the first source of the ordered
pass): the record is created on first sighting, then every capability is
folded by projCapStep while template hits mark the grantee. -/
def processProjectPerm (st : MergeState) (r : PermRule) : MergeState :=
  { records := dinsert st.records (gkeyOf r) (projFoldRes st r).1,
    templated := (projFoldRes st r).2, vcs := st.vcs }

/-- The capabilities of one default-permission rule folded into a capability
dict: a capability whose name is a key of this content-kind's template table
injects only that table's expansion (overwriting); any other capability is
stored under the content-kind-namespaced name. -/
def applyDefCaps (tmpl : List (String × List (String × String))) (pfx : String)
    (caps : List (String × String)) (l : List (String × String)) : List (String × String) :=
  l.foldl
    (fun a c =>
      match dlookup tmpl c.1 with
      | some exp => dinsertAll a exp
      | none => dinsert a (pfx ++ c.1) c.2)
    caps

/-- Processing of one default-permission rule for a nested content-kind.
The virtual-connection source records the grantee in the tracking set before
anything else; a grantee that already has a template applied is then skipped
entirely; otherwise the record is created on first sighting and the
capabilities are folded by applyDefCaps. -/
def processDefaultPerm (tmpl : List (String × List (String × String))) (pfx : String)
    (trackVc : Bool) (st : MergeState) (r : PermRule) : MergeState :=
  if gkeyOf r ∈ st.templated then
    { st with vcs := if trackVc then addKey st.vcs (gkeyOf r) else st.vcs }
  else
    { records := dinsert st.records (gkeyOf r)
        (applyDefCaps tmpl pfx ((dlookup st.records (gkeyOf r)).getD []) r.capabilities),
      templated := st.templated,
      vcs := if trackVc then addKey st.vcs (gkeyOf r) else st.vcs }

/-- The project-level pass over a list of rules. -/
def projPass (st : MergeState) (rules : List PermRule) : MergeState :=
  rules.foldl processProjectPerm st

/-- A default-permission pass over a list of rules. -/
def defPass (tmpl : List (String × List (String × String))) (pfx : String) (trackVc : Bool)
    (st : MergeState) (rules : List PermRule) : MergeState :=
  rules.foldl (processDefaultPerm tmpl pfx trackVc) st

/-- The state after consuming every source of the ordered pass: project-level
rules first, then the default-permission rules for workbook, datasource, flow,
virtualconnection, database, table, in that fixed order. -/
def mergeStates (proj wb ds fl vc db tbl : List PermRule) : MergeState :=
  defPass tableTemplates "table_" false
    (defPass databaseTemplates "database_" false
      (defPass virtualconnectionTemplates "virtualconnection_" true
        (defPass flowTemplates "flow_" false
          (defPass datasourceTemplates "datasource_" false
            (defPass workbookTemplates "workbook_" false
              (projPass initState proj) wb) ds) fl) vc) db) tbl

/-- One merged output record, as get_project_permissions returns it. -/
structure MergedEntry where
  granteeType : String
  granteeId : String
  assetPermissions : String
  capabilities : List (String × String)
  deriving DecidableEq

/-- The capability adjustment of the final conversion: for a grantee that was
seen in the virtual-connection source or holds any
virtualconnection-namespaced capability, a virtualconnection_Write entry is
ensured (the No API Endpoint sentinel) when not already present. -/
def adjustCaps (vcs : List (String × String)) (g : String × String)
    (caps : List (String × String)) : List (String × String) :=
  if g ∈ vcs ∨ keyAny caps (fun n => strStartsB n "virtualconnection_") = true then
    if dlookup caps "virtualconnection_Write" = none then
      dinsert caps "virtualconnection_Write" "No API Endpoint"
    else caps
  else caps

/-- The final conversion of one grantee record. -/
def finalizeEntry (cp : String) (vcs : List (String × String))
    (p : (String × String) × List (String × String)) : MergedEntry :=
  ⟨p.1.1, p.1.2, cp, adjustCaps vcs p.1 p.2⟩

/-- The final conversion of get_project_permissions, record by record. -/
def finalizeRecords (cp : String) (st : MergeState) : List MergedEntry :=
  st.records.map (finalizeEntry cp st.vcs)

/-- The merge of get_project_permissions, given the already-fetched rule lists
of the seven sources and the project's contentPermissions attribute. -/
def mergeProject (cp : String) (proj wb ds fl vc db tbl : List PermRule) : List MergedEntry :=
  finalizeRecords cp (mergeStates proj wb ds fl vc db tbl)

/-- Result of one HTTP fetch; the source catches every exception of a
default-permission fetch, so the error carries no information. -/
abbrev FetchResult := Except Unit (List PermRule)

/-- Embedding of _get_default_permissions: a failed fetch contributes zero
rules instead of propagating the failure. -/
def getDefaultPermissions (f : FetchResult) : List PermRule :=
  match f with
  | .ok l => l
  | .error _ => []

/-- The fetched inputs of one call of get_project_permissions: the
project-level rules (whose fetch failure is fatal and therefore modelled as
already having succeeded) and the default-permission fetches, with the three
alternate virtual-connection endpoints tried in order. -/
structure Fetches where
  project : List PermRule
  workbooks : FetchResult
  datasources : FetchResult
  flows : FetchResult
  vconn1 : FetchResult
  vconn2 : FetchResult
  vconn3 : FetchResult
  databases : FetchResult
  tables : FetchResult

/-- The virtual-connection rule list: the endpoints are tried in order and the
first one that yields data wins (the loop breaks on a non-empty result). -/
def vcRulesOf (f : Fetches) : List PermRule :=
  let d1 := getDefaultPermissions f.vconn1
  if d1.isEmpty then
    let d2 := getDefaultPermissions f.vconn2
    if d2.isEmpty then getDefaultPermissions f.vconn3 else d2
  else d1

/-- get_project_permissions as a function of the fetched inputs. -/
def getProjectPermissions (cp : String) (f : Fetches) : List MergedEntry :=
  mergeProject cp f.project
    (getDefaultPermissions f.workbooks)
    (getDefaultPermissions f.datasources)
    (getDefaultPermissions f.flows)
    (vcRulesOf f)
    (getDefaultPermissions f.databases)
    (getDefaultPermissions f.tables)

/-- The individual fetch slots of the default-permission sources. -/
inductive DefaultSlot where
  | workbooks | datasources | flows | vconn1 | vconn2 | vconn3 | databases | tables
  deriving DecidableEq

/-- Replace the fetch result of one default-permission slot. -/
def setSlot (f : Fetches) (s : DefaultSlot) (v : FetchResult) : Fetches :=
  match s with
  | .workbooks => { f with workbooks := v }
  | .datasources => { f with datasources := v }
  | .flows => { f with flows := v }
  | .vconn1 => { f with vconn1 := v }
  | .vconn2 => { f with vconn2 := v }
  | .vconn3 => { f with vconn3 := v }
  | .databases => { f with databases := v }
  | .tables => { f with tables := v }

/-- Lookup of a capability mode in the merged output, by grantee key. -/
def outputCapLookup (entries : List MergedEntry) (g : String × String) (n : String) : Option String :=
  match entries.find? (fun e => e.granteeType == g.1 && e.granteeId == g.2) with
  | some e => dlookup e.capabilities n
  | none => none

/-- The merged capabilities of one grantee in the output, if it has a record. -/
def outputRecordOf (entries : List MergedEntry) (g : String × String) :
    Option (List (String × String)) :=
  (entries.find? (fun e => e.granteeType == g.1 && e.granteeId == g.2)).map (·.capabilities)

/-- Lookup of a capability mode in the pre-finalization merge state. -/
def recCapLookup (st : MergeState) (g : String × String) (n : String) : Option String :=
  match dlookup st.records g with
  | some caps => dlookup caps n
  | none => none

/-- Whether some capability key of a grantee's pre-finalization record
satisfies a predicate. -/
def recKeyAny (st : MergeState) (g : String × String) (p : String → Bool) : Bool :=
  match dlookup st.records g with
  | some caps => keyAny caps p
  | none => false

/-- The capabilities contributed for one grantee by one source, in order. -/
def capsOf (rules : List PermRule) (g : String × String) : List (String × String) :=
  ((rules.filter fun r => gkeyOf r == g).map (·.capabilities)).flatten

/-- The capabilities contributed for one grantee by one default-permission
source, under the content-kind namespace. -/
def capsOfPrefixed (rules : List PermRule) (g : String × String) (pfx : String) :
    List (String × String) :=
  (capsOf rules g).map fun c => (pfx ++ c.1, c.2)

/-- All namespaced raw capability assignments observed for one grantee across
the seven sources, in pass order (project-level names carry no namespace). -/
def observedOf (proj wb ds fl vc db tbl : List PermRule) (g : String × String) :
    List (String × String) :=
  capsOf proj g ++
  capsOfPrefixed wb g "workbook_" ++
  capsOfPrefixed ds g "datasource_" ++
  capsOfPrefixed fl g "flow_" ++
  capsOfPrefixed vc g "virtualconnection_" ++
  capsOfPrefixed db g "database_" ++
  capsOfPrefixed tbl g "table_"

/-- Whether a grantee carries no template-name capability in a rule list with
respect to one template table. -/
def noTmplCapsFor (tmpl : List (String × List (String × String))) (rules : List PermRule)
    (g : String × String) : Bool :=
  rules.all fun r => !(gkeyOf r == g) || r.capabilities.all fun c => (dlookup tmpl c.1).isNone

/-- Whether a grantee carries no template capability in any of the seven
sources of a project merge. -/
def noTemplateFor (proj wb ds fl vc db tbl : List PermRule) (g : String × String) : Bool :=
  noTmplCapsFor projectTemplates proj g &&
  noTmplCapsFor workbookTemplates wb g &&
  noTmplCapsFor datasourceTemplates ds g &&
  noTmplCapsFor flowTemplates fl g &&
  noTmplCapsFor virtualconnectionTemplates vc g &&
  noTmplCapsFor databaseTemplates db g &&
  noTmplCapsFor tableTemplates tbl g

/-- Modelled from the amended claim C4: the merged capabilities of a grantee
without templates are the observed namespaced assignments, last observation
winning, plus the virtualconnection_Write sentinel added when the grantee was
seen in the virtual-connection source or observed any
virtualconnection-namespaced capability without observing
virtualconnection_Write itself. -/
def c4SpecLookup (proj wb ds fl vc db tbl : List PermRule) (g : String × String) (n : String) :
    Option String :=
  if n = "virtualconnection_Write" then
    match lastVal (observedOf proj wb ds fl vc db tbl g) n with
    | some v => some v
    | none =>
      if ((vc.any fun r => gkeyOf r == g) ||
          (observedOf proj wb ds fl vc db tbl g).any fun c => strStartsB c.1 "virtualconnection_")
      then some "No API Endpoint" else none
  else lastVal (observedOf proj wb ds fl vc db tbl g) n

end MergeEngineDefs

section CsvDefs

/-- One flattened export row handed to export_permissions_to_csv: a Python
dict from field or capability name to a string value. -/
abbrev Row := List (String × String)

/-- The fixed identity and context fields of export_permissions_to_csv (the
same list is used both to exclude capability keys and to order the fixed
columns). -/
def fixedFields : List String :=
  ["content_type", "content_id", "content_name", "workbook_name", "project_name",
   "parent_project_id", "asset_permissions", "grantee_type", "grantee_id", "grantee_name"]

/-- The keys of one row. -/
def rowKeys (r : Row) : List String := r.map (·.1)

/-- The set of all field names appearing in the rows. -/
def allFields (rows : List Row) : List String :=
  rows.foldl (fun s r => (rowKeys r).foldl addKey s) []

/-- The set of capability names observed in the rows: every key that is not a
fixed field. -/
def capsInDataRaw (rows : List Row) : List String :=
  rows.foldl (fun s r => ((rowKeys r).filter fun k => !(fixedFields.contains k)).foldl addKey s) []

/-- One synonym-removal step of export_permissions_to_csv: when both spellings
are observed, the duplicate spelling is discarded. -/
def discardSyn (s : List String) (keep drop : String) : List String :=
  if keep ∈ s ∧ drop ∈ s then s.erase drop else s

/-- The observed capability set after the five synonym-removal steps. -/
def capsInData (rows : List Row) : List String :=
  let s0 := capsInDataRaw rows
  let s1 := discardSyn s0 "ExtractRefresh" "CreateRefreshMetrics"
  let s2 := discardSyn s1 "VizqlDataApiAccess" "InheritedProjectLeader"
  let s3 := discardSyn s2 "workbook_ExtractRefresh" "workbook_CreateRefreshMetrics"
  let s4 := discardSyn s3 "datasource_ExtractRefresh" "datasource_CreateRefreshMetrics"
  discardSyn s4 "datasource_VizqlDataApiAccess" "datasource_InheritedProjectLeader"

/-- The content-kind of a row; a row without a content_type key counts as a
workbook row. -/
def kindOf (r : Row) : String := (dlookup r "content_type").getD "workbook"

/-- The set of content-kinds appearing in the rows. -/
def contentTypesInData (rows : List Row) : List String :=
  rows.foldl (fun s r => addKey s (kindOf r)) []

/-- The batch-kind selection of export_permissions_to_csv, as a relation: with
a single kind in the data that kind is selected; otherwise workbook is
preferred when present; otherwise the source takes the first element of a
Python set, whose hash-dependent order is modelled as an arbitrary member. -/
def selectsKindB (rows : List Row) (k : String) : Bool :=
  let s := contentTypesInData rows
  if s.length == 1 then s.contains k
  else if s.contains "workbook" then k == "workbook"
  else s.contains k

/-- Modelled from the claim C7 wording only: the first-seen content-kind of
the rows. -/
def firstSeenKind (rows : List Row) : Option String := (rows.map kindOf).head?

/-- capability_order from export_permissions_to_csv: the canonical capability
ordering per content-kind; an unknown kind yields the empty ordering. -/
def capabilityOrder (k : String) : List String :=
  if k = "workbook" then
    ["Read", "Filter", "ViewComments", "AddComment", "ExportImage", "ExportData",
     "ShareView", "ViewUnderlyingData", "WebAuthoring", "RunExplainData", "ExportXml",
     "Write", "ChangeHierarchy", "Delete", "ChangePermissions", "ExtractRefresh"]
  else if k = "datasource" then
    ["Read", "Connect", "ExportXml", "Write", "SaveAs", "VizqlDataApiAccess",
     "PulseMetricDefine", "ChangeHierarchy", "Delete", "ChangePermissions", "ExtractRefresh"]
  else if k = "project" then
    ["Read", "Write",
     "workbook_Read", "workbook_Filter", "workbook_ViewComments", "workbook_AddComment",
     "workbook_ExportImage", "workbook_ExportData", "workbook_ShareView",
     "workbook_ViewUnderlyingData", "workbook_WebAuthoring", "workbook_RunExplainData",
     "workbook_ExportXml", "workbook_Write", "workbook_ChangeHierarchy", "workbook_Delete",
     "workbook_ChangePermissions", "workbook_ExtractRefresh",
     "datasource_Read", "datasource_Connect", "datasource_ExportXml", "datasource_Write",
     "datasource_SaveAs", "datasource_VizqlDataApiAccess", "datasource_PulseMetricDefine",
     "datasource_ChangeHierarchy", "datasource_Delete", "datasource_ChangePermissions",
     "datasource_ExtractRefresh",
     "flow_Read", "flow_ExportXml", "flow_Execute", "flow_Write", "flow_WebAuthoringForFlows",
     "flow_ChangeHierarchy", "flow_Delete", "flow_ChangePermissions",
     "virtualconnection_Read", "virtualconnection_Connect", "virtualconnection_Write",
     "virtualconnection_ChangeHierarchy", "virtualconnection_Delete", "virtualconnection_ChangePermissions",
     "database_Read", "database_Write", "database_ChangeHierarchy", "database_ChangePermissions",
     "table_Read", "table_Write", "table_ChangeHierarchy", "table_ChangePermissions"]
  else if k = "view" then
    ["Read", "Filter", "ViewComments", "AddComment", "ExportImage", "ExportData",
     "ShareView", "ViewUnderlyingData", "WebAuthoring", "Delete", "ChangePermissions"]
  else if k = "flow" then
    ["Read", "ExportXml", "Execute", "Write", "WebAuthoringForFlows",
     "ChangeHierarchy", "Delete", "ChangePermissions"]
  else []

/-- Python set(list): fold the list into a duplicate-free list. -/
def setOfList (l : List String) : List String := l.foldl addKey []

/-- The capability columns of a batch: the canonical ordering of the selected
kind, then the remaining observed capabilities sorted. -/
def sortedCapabilities (rows : List Row) (k : String) : List String :=
  capabilityOrder k ++ List.insertionSort strLe
    (((capsInData rows).foldl addKey (setOfList (capabilityOrder k))).filter
      fun c => !((setOfList (capabilityOrder k)).contains c))

/-- Python perm.get(key, default empty string). -/
def rowGet (r : Row) (k : String) : String := (dlookup r k).getD ""

/-- Rendering of one capability cell: an empty or absent virtualconnection
Write value renders the No API Endpoint sentinel, any other empty or absent
value renders the No setting sentinel. -/
def renderCell (r : Row) (cap : String) : String :=
  let v := rowGet r cap
  if cap = "virtualconnection_Write" ∧ v = "" then "No API Endpoint"
  else if v = "" then "No setting" else v

/-- export_permissions_to_csv: for an empty batch nothing is written and no
file is created (modelled as none); otherwise the header carries the present
fixed fields and the capability columns (the display-name decoration of the
header cells, a bijective renaming, is not modelled), and one data row is
written per input row. -/
def exportPermissionsToCsv (rows : List Row) (k : String) :
    Option (List String × List (List String)) :=
  if rows.isEmpty then none
  else
    let fieldnames := fixedFields.filter fun f => (allFields rows).contains f
    let cols := sortedCapabilities rows k
    some (fieldnames ++ cols,
      rows.map fun r => fieldnames.map (rowGet r) ++ cols.map (renderCell r))

end CsvDefs

section AssocTheorems

variable {K V : Type} [DecidableEq K]

theorem dlookup_dinsert (m : List (K × V)) (k : K) (v : V) (n : K) :
    dlookup (dinsert m k v) n = if n = k then some v else dlookup m n := by
  induction m with
  | nil =>
    rcases eq_or_ne n k with rfl | h
    · simp [dinsert, dlookup]
    · simp [dinsert, dlookup, h, Ne.symm h]
  | cons p t ih =>
    rcases eq_or_ne p.1 k with hp | hp
    · rcases eq_or_ne n k with rfl | hn
      · simp [dinsert, dlookup, hp]
      · simp [dinsert, dlookup, hp, hn, Ne.symm hn]
    · simp only [dinsert, if_neg hp, dlookup]
      rcases eq_or_ne p.1 n with hpn | hpn
      · have hnk : n ≠ k := fun e => hp (hpn.trans e)
        simp [hpn, hnk]
      · simp [hpn, ih]

theorem lastVal_append (l1 l2 : List (K × V)) (k : K) :
    lastVal (l1 ++ l2) k =
      match lastVal l2 k with
      | some v => some v
      | none => lastVal l1 k := by
  induction l1 with
  | nil =>
    simp only [List.nil_append]
    cases h : lastVal l2 k <;> simp [lastVal, h]
  | cons p t ih =>
    simp only [List.cons_append, lastVal, List.append_eq, ih]
    cases lastVal l2 k <;> cases lastVal t k <;> rfl

theorem dlookup_dinsertAll (m : List (K × V)) (l : List (K × V)) (k : K) :
    dlookup (dinsertAll m l) k =
      match lastVal l k with
      | some v => some v
      | none => dlookup m k := by
  induction l generalizing m with
  | nil => rfl
  | cons p t ih =>
    simp only [dinsertAll, List.foldl_cons, lastVal]
    rw [show (List.foldl (fun acc q => dinsert acc q.1 q.2) (dinsert m p.1 p.2) t) =
          dinsertAll (dinsert m p.1 p.2) t from rfl, ih]
    cases h : lastVal t k with
    | some v => rfl
    | none =>
      rw [dlookup_dinsert]
      by_cases hk : k = p.1
      · simp [hk]
      · have : ¬ p.1 = k := fun h' => hk h'.symm
        simp [hk, this]

theorem dlookup_dinsertAll_ofirst (m : List (K × V)) (l : List (K × V)) (k : K) :
    dlookup (dinsertAll m l) k = ofirst (lastVal l k) (dlookup m k) := by
  rw [dlookup_dinsertAll]
  cases lastVal l k <;> rfl

theorem dinsertAll_append (m : List (K × V)) (l1 l2 : List (K × V)) :
    dinsertAll m (l1 ++ l2) = dinsertAll (dinsertAll m l1) l2 := by
  simp [dinsertAll, List.foldl_append]

theorem mem_addKey (l : List K) (k a : K) : a ∈ addKey l k ↔ a ∈ l ∨ a = k := by
  unfold addKey
  by_cases h : k ∈ l
  · simp only [if_pos h]
    constructor
    · exact Or.inl
    · rintro (ha | rfl) <;> assumption
  · simp [if_neg h, List.mem_append]

theorem keyAny_dinsert (m : List (K × V)) (k : K) (v : V) (p : K → Bool) :
    keyAny (dinsert m k v) p = (keyAny m p || p k) := by
  have habs : ∀ a b : Bool, (a || b || a) = (a || b) := by decide
  induction m with
  | nil => simp [dinsert, keyAny]
  | cons q t ih =>
    by_cases h : q.1 = k
    · simp only [dinsert, if_pos h, keyAny, List.any_cons, h]
      exact (habs (p k) (t.any fun e => p e.1)).symm
    · simp only [dinsert, if_neg h, keyAny, List.any_cons] at *
      rw [ih, Bool.or_assoc]

theorem keyAny_dinsertAll (m : List (K × V)) (l : List (K × V)) (p : K → Bool) :
    keyAny (dinsertAll m l) p = (keyAny m p || l.any fun e => p e.1) := by
  induction l generalizing m with
  | nil => simp [dinsertAll, keyAny]
  | cons q t ih =>
    simp only [dinsertAll, List.foldl_cons, List.any_cons]
    rw [show (List.foldl (fun acc e => dinsert acc e.1 e.2) (dinsert m q.1 q.2) t) =
          dinsertAll (dinsert m q.1 q.2) t from rfl, ih, keyAny_dinsert, Bool.or_assoc]

theorem dlookup_isSome_keyAny (m : List (K × V)) (k : K) (v : V) (p : K → Bool)
    (h : dlookup m k = some v) (hp : p k = true) : keyAny m p = true := by
  induction m with
  | nil => simp [dlookup] at h
  | cons q t ih =>
    by_cases hq : q.1 = k
    · simp [keyAny, List.any_cons, hq, hp]
    · simp only [dlookup, if_neg hq] at h
      simp [keyAny, List.any_cons] at ih ⊢
      exact Or.inr (by simpa [keyAny] using ih h)

theorem foldl_prod {α β γ : Type} (f : α → γ → α) (g : β → γ → β) (l : List γ) (a : α) (b : β) :
    l.foldl (fun p c => (f p.1 c, g p.2 c)) (a, b) = (l.foldl f a, l.foldl g b) := by
  induction l generalizing a b with
  | nil => rfl
  | cons c t ih => simp [List.foldl_cons, ih]

theorem mem_foldl_addKey (l : List K) (init : List K) (a : K) :
    a ∈ l.foldl addKey init ↔ a ∈ init ∨ a ∈ l := by
  induction l generalizing init with
  | nil => simp
  | cons x t ih =>
    simp only [List.foldl_cons, ih, mem_addKey, List.mem_cons]
    tauto

theorem nodup_addKey (l : List K) (k : K) (h : l.Nodup) : (addKey l k).Nodup := by
  unfold addKey
  by_cases hk : k ∈ l
  · simpa [if_pos hk] using h
  · simp only [if_neg hk]
    refine List.Nodup.append h (List.nodup_singleton k) ?_
    intro a ha hb
    rw [List.mem_singleton] at hb
    exact hk (hb ▸ ha)

theorem nodup_foldl_addKey (l : List K) (init : List K) (h : init.Nodup) :
    (l.foldl addKey init).Nodup := by
  induction l generalizing init with
  | nil => simpa
  | cons x t ih => exact ih (addKey init x) (nodup_addKey init x h)

end AssocTheorems

section StringOrderTheorems

theorem lexLeB_total (a b : List Char) : lexLeB a b = true ∨ lexLeB b a = true := by
  induction a generalizing b with
  | nil => left; rfl
  | cons x xs ih =>
    cases b with
    | nil => right; rfl
    | cons y ys =>
      by_cases h1 : x.toNat < y.toNat
      · left; simp [lexLeB, h1]
      · by_cases h2 : y.toNat < x.toNat
        · right; simp [lexLeB, h2]
        · rcases ih ys with h | h
          · left; simp [lexLeB, h1, h2, h]
          · right; simp [lexLeB, h1, h2, h]

theorem lexLeB_trans (a b c : List Char) (h1 : lexLeB a b = true) (h2 : lexLeB b c = true) :
    lexLeB a c = true := by
  induction a generalizing b c with
  | nil => rfl
  | cons x xs ih =>
    cases b with
    | nil => simp [lexLeB] at h1
    | cons y ys =>
      cases c with
      | nil => simp [lexLeB] at h2
      | cons z zs =>
        simp only [lexLeB] at h1 h2 ⊢
        by_cases hxy : x.toNat < y.toNat
        · by_cases hyz : y.toNat < z.toNat
          · simp [show x.toNat < z.toNat from Nat.lt_trans hxy hyz]
          · by_cases hzy : z.toNat < y.toNat
            · simp [hyz, hzy] at h2
            · have : y.toNat = z.toNat := Nat.le_antisymm (Nat.le_of_not_lt hzy) (Nat.le_of_not_lt hyz)
              simp [show x.toNat < z.toNat from this ▸ hxy]
        · by_cases hyx : y.toNat < x.toNat
          · simp [hxy, hyx] at h1
          · have hxyeq : x.toNat = y.toNat := Nat.le_antisymm (Nat.le_of_not_lt hyx) (Nat.le_of_not_lt hxy)
            by_cases hyz : y.toNat < z.toNat
            · simp [show x.toNat < z.toNat from hxyeq ▸ hyz]
            · by_cases hzy : z.toNat < y.toNat
              · simp [hyz, hzy] at h2
              · have hyzeq : y.toNat = z.toNat := Nat.le_antisymm (Nat.le_of_not_lt hzy) (Nat.le_of_not_lt hyz)
                have hxz : ¬ x.toNat < z.toNat := by omega
                have hzx : ¬ z.toNat < x.toNat := by omega
                simp [hxz, hzx]
                exact ih ys zs (by simpa [hxy, hyx] using h1) (by simpa [hyz, hzy] using h2)

theorem lexLeB_antisymm (a b : List Char) (h1 : lexLeB a b = true) (h2 : lexLeB b a = true) :
    a = b := by
  induction a generalizing b with
  | nil => cases b with
    | nil => rfl
    | cons y ys => simp [lexLeB] at h2
  | cons x xs ih =>
    cases b with
    | nil => simp [lexLeB] at h1
    | cons y ys =>
      simp only [lexLeB] at h1 h2
      by_cases hxy : x.toNat < y.toNat
      · have : ¬ y.toNat < x.toNat := by omega
        simp [hxy, this] at h2
      · by_cases hyx : y.toNat < x.toNat
        · simp [hxy, hyx] at h1
        · have hx : x = y := by
            apply Char.ext
            apply UInt32.toNat.inj
            show x.toNat = y.toNat
            omega
          have := ih ys (by simpa [hxy, hyx] using h1) (by simpa [hxy, hyx] using h2)
          rw [hx, this]

theorem strLe_total : ∀ a b : String, strLe a b ∨ strLe b a := fun a b => by
  unfold strLe strLeB; exact lexLeB_total a.toList b.toList

theorem strLe_trans : ∀ a b c : String, strLe a b → strLe b c → strLe a c := fun a b c h1 h2 => by
  unfold strLe strLeB at *
  exact lexLeB_trans a.toList b.toList c.toList h1 h2

theorem strLe_antisymm : ∀ a b : String, strLe a b → strLe b a → a = b := fun a b h1 h2 => by
  unfold strLe strLeB at h1 h2
  have := lexLeB_antisymm a.toList b.toList h1 h2
  exact String.ext (by simpa [String.toList] using this)

end StringOrderTheorems

section MergeEngineTheorems

theorem projFoldRes_eq (st : MergeState) (r : PermRule) :
    projFoldRes st r =
      (applyProjCaps ((dlookup st.records (gkeyOf r)).getD []) r.capabilities,
       r.capabilities.foldl (markStep (gkeyOf r)) st.templated) := by
  unfold projFoldRes applyProjCaps
  exact foldl_prod projCapStep (markStep (gkeyOf r)) r.capabilities _ _

theorem processProject_records_lookup (st : MergeState) (r : PermRule) (g : String × String) :
    dlookup (processProjectPerm st r).records g =
      if g = gkeyOf r then some (applyProjCaps ((dlookup st.records (gkeyOf r)).getD []) r.capabilities)
      else dlookup st.records g := by
  show dlookup (dinsert st.records (gkeyOf r) (projFoldRes st r).1) g = _
  rw [projFoldRes_eq, dlookup_dinsert]

theorem mem_foldl_markStep (k : String × String) (l : List (String × String))
    (t : List (String × String)) (g : String × String) :
    g ∈ l.foldl (markStep k) t ↔
      g ∈ t ∨ ((l.any fun c => (dlookup projectTemplates c.1).isSome) = true ∧ k = g) := by
  induction l generalizing t with
  | nil => simp
  | cons c l ih =>
    simp only [List.foldl_cons, ih, List.any_cons, Bool.or_eq_true]
    cases hc : (dlookup projectTemplates c.1).isSome
    · simp [markStep, hc]
    · simp [markStep, hc, mem_addKey]
      tauto

theorem processProject_templated_mem (st : MergeState) (r : PermRule) (g : String × String) :
    g ∈ (processProjectPerm st r).templated ↔
      g ∈ st.templated ∨
        ((r.capabilities.any fun c => (dlookup projectTemplates c.1).isSome) = true ∧ gkeyOf r = g) := by
  show g ∈ (projFoldRes st r).2 ↔ _
  rw [projFoldRes_eq]
  exact mem_foldl_markStep (gkeyOf r) r.capabilities st.templated g

theorem processProject_vcs (st : MergeState) (r : PermRule) :
    (processProjectPerm st r).vcs = st.vcs := rfl

theorem processDefault_templated (tmpl : List (String × List (String × String))) (pfx : String)
    (tv : Bool) (st : MergeState) (r : PermRule) :
    (processDefaultPerm tmpl pfx tv st r).templated = st.templated := by
  unfold processDefaultPerm
  by_cases h : gkeyOf r ∈ st.templated <;> simp [h]

theorem processDefault_vcs_mem (tmpl : List (String × List (String × String))) (pfx : String)
    (tv : Bool) (st : MergeState) (r : PermRule) (g : String × String) :
    g ∈ (processDefaultPerm tmpl pfx tv st r).vcs ↔
      g ∈ st.vcs ∨ (tv = true ∧ gkeyOf r = g) := by
  unfold processDefaultPerm
  by_cases h : gkeyOf r ∈ st.templated <;> cases tv <;> simp [h, mem_addKey] <;> tauto

theorem processDefault_records_skip (tmpl : List (String × List (String × String))) (pfx : String)
    (tv : Bool) (st : MergeState) (r : PermRule) (g : String × String) (h : g ∈ st.templated) :
    dlookup (processDefaultPerm tmpl pfx tv st r).records g = dlookup st.records g := by
  unfold processDefaultPerm
  by_cases hr : gkeyOf r ∈ st.templated
  · simp [hr]
  · have hg : ¬ g = gkeyOf r := fun e => hr (e ▸ h)
    simp [hr, dlookup_dinsert, hg]

theorem processDefault_records_other (tmpl : List (String × List (String × String))) (pfx : String)
    (tv : Bool) (st : MergeState) (r : PermRule) (g : String × String) (h : g ≠ gkeyOf r) :
    dlookup (processDefaultPerm tmpl pfx tv st r).records g = dlookup st.records g := by
  unfold processDefaultPerm
  by_cases hr : gkeyOf r ∈ st.templated
  · simp [hr]
  · simp [hr, dlookup_dinsert, h]

theorem processDefault_records_self (tmpl : List (String × List (String × String))) (pfx : String)
    (tv : Bool) (st : MergeState) (r : PermRule) (h : gkeyOf r ∉ st.templated) :
    dlookup (processDefaultPerm tmpl pfx tv st r).records (gkeyOf r) =
      some (applyDefCaps tmpl pfx ((dlookup st.records (gkeyOf r)).getD []) r.capabilities) := by
  unfold processDefaultPerm
  simp [h, dlookup_dinsert]

theorem capsOf_cons (r : PermRule) (t : List PermRule) (g : String × String) :
    capsOf (r :: t) g =
      if gkeyOf r = g then r.capabilities ++ capsOf t g else capsOf t g := by
  by_cases h : gkeyOf r = g
  · simp [capsOf, List.filter_cons, h]
  · simp [capsOf, List.filter_cons, h]

theorem capsOf_nil_of_not_any (rules : List PermRule) (g : String × String)
    (h : (rules.any fun r => gkeyOf r == g) = false) : capsOf rules g = [] := by
  induction rules with
  | nil => rfl
  | cons r t ih =>
    simp only [List.any_cons, Bool.or_eq_false_iff] at h
    rw [capsOf_cons, if_neg (by simpa using h.1)]
    exact ih h.2

theorem applyProjCaps_append (caps : List (String × String)) (l1 l2 : List (String × String)) :
    applyProjCaps caps (l1 ++ l2) = applyProjCaps (applyProjCaps caps l1) l2 := by
  simp [applyProjCaps, List.foldl_append]

theorem projPass_records (rules : List PermRule) (st : MergeState) (g : String × String) :
    dlookup (projPass st rules).records g =
      if (rules.any fun r => gkeyOf r == g) = true
      then some (applyProjCaps ((dlookup st.records g).getD []) (capsOf rules g))
      else dlookup st.records g := by
  induction rules generalizing st with
  | nil => simp [projPass, capsOf]
  | cons r t ih =>
    have hstep : projPass st (r :: t) = projPass (processProjectPerm st r) t := rfl
    rw [hstep, ih]
    by_cases hg : gkeyOf r = g
    · subst hg
      rw [capsOf_cons, if_pos rfl]
      have hself : dlookup (processProjectPerm st r).records (gkeyOf r) =
          some (applyProjCaps ((dlookup st.records (gkeyOf r)).getD []) r.capabilities) := by
        rw [processProject_records_lookup, if_pos rfl]
      by_cases ht : (t.any fun r' => gkeyOf r' == gkeyOf r) = true
      · simp only [List.any_cons, beq_self_eq_true, Bool.true_or, if_pos, ht,
          hself, Option.getD_some, applyProjCaps_append]
      · have ht' : (t.any fun r' => gkeyOf r' == gkeyOf r) = false := by
          simpa using ht
        rw [capsOf_nil_of_not_any t (gkeyOf r) ht', List.append_nil]
        simp only [ht', List.any_cons, beq_self_eq_true, Bool.true_or, if_true, if_false, hself]
        simp
    · have hother : dlookup (processProjectPerm st r).records g = dlookup st.records g := by
        rw [processProject_records_lookup, if_neg (fun e => hg e.symm)]
      rw [hother, capsOf_cons, if_neg hg]
      have : ((r :: t).any fun r' => gkeyOf r' == g) = (t.any fun r' => gkeyOf r' == g) := by
        simp only [List.any_cons]
        have : (gkeyOf r == g) = false := by simpa using hg
        rw [this, Bool.false_or]
      rw [this]

theorem projPass_templated_mem (rules : List PermRule) (st : MergeState) (g : String × String) :
    g ∈ (projPass st rules).templated ↔
      g ∈ st.templated ∨
        ((capsOf rules g).any fun c => (dlookup projectTemplates c.1).isSome) = true := by
  induction rules generalizing st with
  | nil => simp [projPass, capsOf]
  | cons r t ih =>
    have hstep : projPass st (r :: t) = projPass (processProjectPerm st r) t := rfl
    rw [hstep, ih, processProject_templated_mem, capsOf_cons]
    by_cases hg : gkeyOf r = g
    · simp only [if_pos hg, List.any_append, Bool.or_eq_true]
      tauto
    · simp only [if_neg hg]
      constructor
      · rintro ((h | ⟨_, e⟩) | h)
        · exact Or.inl h
        · exact absurd e hg
        · exact Or.inr h
      · rintro (h | h)
        · exact Or.inl (Or.inl h)
        · exact Or.inr h

theorem projPass_vcs (rules : List PermRule) (st : MergeState) :
    (projPass st rules).vcs = st.vcs := by
  induction rules generalizing st with
  | nil => rfl
  | cons r t ih =>
    have hstep : projPass st (r :: t) = projPass (processProjectPerm st r) t := rfl
    rw [hstep, ih, processProject_vcs]

theorem defPass_templated (tmpl : List (String × List (String × String))) (pfx : String)
    (tv : Bool) (rules : List PermRule) (st : MergeState) :
    (defPass tmpl pfx tv st rules).templated = st.templated := by
  induction rules generalizing st with
  | nil => rfl
  | cons r t ih =>
    have hstep : defPass tmpl pfx tv st (r :: t) =
        defPass tmpl pfx tv (processDefaultPerm tmpl pfx tv st r) t := rfl
    rw [hstep, ih, processDefault_templated]

theorem defPass_records_skip (tmpl : List (String × List (String × String))) (pfx : String)
    (tv : Bool) (rules : List PermRule) (st : MergeState) (g : String × String)
    (h : g ∈ st.templated) :
    dlookup (defPass tmpl pfx tv st rules).records g = dlookup st.records g := by
  induction rules generalizing st with
  | nil => rfl
  | cons r t ih =>
    have hstep : defPass tmpl pfx tv st (r :: t) =
        defPass tmpl pfx tv (processDefaultPerm tmpl pfx tv st r) t := rfl
    rw [hstep, ih _ (by rw [processDefault_templated]; exact h),
      processDefault_records_skip tmpl pfx tv st r g h]

theorem defPass_vcs_mem (tmpl : List (String × List (String × String))) (pfx : String)
    (tv : Bool) (rules : List PermRule) (st : MergeState) (g : String × String) :
    g ∈ (defPass tmpl pfx tv st rules).vcs ↔
      g ∈ st.vcs ∨ (tv = true ∧ (rules.any fun r => gkeyOf r == g) = true) := by
  induction rules generalizing st with
  | nil => simp [defPass]
  | cons r t ih =>
    have hstep : defPass tmpl pfx tv st (r :: t) =
        defPass tmpl pfx tv (processDefaultPerm tmpl pfx tv st r) t := rfl
    rw [hstep, ih, processDefault_vcs_mem]
    simp only [List.any_cons, Bool.or_eq_true, beq_iff_eq]
    tauto

theorem applyDefCaps_clean (tmpl : List (String × List (String × String))) (pfx : String)
    (caps : List (String × String)) (l : List (String × String))
    (h : (l.all fun c => (dlookup tmpl c.1).isNone) = true) :
    applyDefCaps tmpl pfx caps l = dinsertAll caps (l.map fun c => (pfx ++ c.1, c.2)) := by
  induction l generalizing caps with
  | nil => rfl
  | cons c t ih =>
    simp only [List.all_cons, Bool.and_eq_true] at h
    have hc : dlookup tmpl c.1 = none := by
      cases hx : dlookup tmpl c.1
      · rfl
      · rw [hx] at h; simp [Option.isNone] at h
    simp only [applyDefCaps, List.foldl_cons, hc, List.map_cons, dinsertAll, List.foldl_cons]
    exact ih (dinsert caps (pfx ++ c.1) c.2) h.2

theorem defPass_records_clean (tmpl : List (String × List (String × String))) (pfx : String)
    (tv : Bool) (rules : List PermRule) (st : MergeState) (g : String × String)
    (hnt : g ∉ st.templated)
    (hcaps : ((capsOf rules g).all fun c => (dlookup tmpl c.1).isNone) = true) :
    dlookup (defPass tmpl pfx tv st rules).records g =
      if (rules.any fun r => gkeyOf r == g) = true
      then some (dinsertAll ((dlookup st.records g).getD []) (capsOfPrefixed rules g pfx))
      else dlookup st.records g := by
  induction rules generalizing st with
  | nil => simp [defPass, capsOfPrefixed, capsOf]
  | cons r t ih =>
    have hstep : defPass tmpl pfx tv st (r :: t) =
        defPass tmpl pfx tv (processDefaultPerm tmpl pfx tv st r) t := rfl
    have hnt' : g ∉ (processDefaultPerm tmpl pfx tv st r).templated := by
      rw [processDefault_templated]; exact hnt
    by_cases hg : gkeyOf r = g
    · have hcapsr : ((r.capabilities).all fun c => (dlookup tmpl c.1).isNone) = true := by
        rw [capsOf_cons, if_pos hg, List.all_append, Bool.and_eq_true] at hcaps
        exact hcaps.1
      have hcapst : ((capsOf t g).all fun c => (dlookup tmpl c.1).isNone) = true := by
        rw [capsOf_cons, if_pos hg, List.all_append, Bool.and_eq_true] at hcaps
        exact hcaps.2
      have hself : dlookup (processDefaultPerm tmpl pfx tv st r).records g =
          some (applyDefCaps tmpl pfx ((dlookup st.records g).getD []) r.capabilities) := by
        rw [← hg, processDefault_records_self tmpl pfx tv st r (by rw [hg]; exact hnt)]
      rw [hstep, ih _ hnt' hcapst]
      have hmapped : capsOfPrefixed (r :: t) g pfx =
          (r.capabilities.map fun c => (pfx ++ c.1, c.2)) ++ capsOfPrefixed t g pfx := by
        simp [capsOfPrefixed, capsOf_cons, if_pos hg]
      by_cases ht : (t.any fun r' => gkeyOf r' == g) = true
      · rw [if_pos ht, hself]
        simp only [Option.getD_some]
        rw [applyDefCaps_clean tmpl pfx _ _ hcapsr, hmapped, dinsertAll_append]
        have : ((r :: t).any fun r' => gkeyOf r' == g) = true := by
          simp [List.any_cons, ht]
        rw [if_pos this]
      · have ht' : (t.any fun r' => gkeyOf r' == g) = false := by simpa using ht
        rw [ht']
        simp only [Bool.false_eq_true, if_false, hself]
        have hcapst0 : capsOf t g = [] := capsOf_nil_of_not_any t g ht'
        have : capsOfPrefixed (r :: t) g pfx = r.capabilities.map fun c => (pfx ++ c.1, c.2) := by
          rw [hmapped]
          simp [capsOfPrefixed, hcapst0]
        rw [this]
        have hany : ((r :: t).any fun r' => gkeyOf r' == g) = true := by
          simp [List.any_cons, hg]
        rw [if_pos hany, applyDefCaps_clean tmpl pfx _ _ hcapsr]
    · have hother : dlookup (processDefaultPerm tmpl pfx tv st r).records g = dlookup st.records g :=
        processDefault_records_other tmpl pfx tv st r g (fun e => hg e.symm)
      have hcapst : ((capsOf t g).all fun c => (dlookup tmpl c.1).isNone) = true := by
        rwa [capsOf_cons, if_neg hg] at hcaps
      rw [hstep, ih _ hnt' hcapst, hother]
      have hanyeq : ((r :: t).any fun r' => gkeyOf r' == g) = (t.any fun r' => gkeyOf r' == g) := by
        simp only [List.any_cons]
        have : (gkeyOf r == g) = false := by simpa using hg
        rw [this, Bool.false_or]
      have hmapped : capsOfPrefixed (r :: t) g pfx = capsOfPrefixed t g pfx := by
        simp [capsOfPrefixed, capsOf_cons, if_neg hg]
      rw [hanyeq, hmapped]

end MergeEngineTheorems

section FinalizeTheorems

theorem find_map_finalize (cp : String) (vcs : List (String × String))
    (recs : List ((String × String) × List (String × String))) (g : String × String) :
    ((recs.map (finalizeEntry cp vcs)).find? fun e => e.granteeType == g.1 && e.granteeId == g.2) =
      (dlookup recs g).map fun caps => finalizeEntry cp vcs (g, caps) := by
  induction recs with
  | nil => rfl
  | cons p t ih =>
    obtain ⟨pk, pcaps⟩ := p
    simp only [List.map_cons, List.find?_cons, dlookup]
    have hgt : (finalizeEntry cp vcs (pk, pcaps)).granteeType = pk.1 := rfl
    have hgi : (finalizeEntry cp vcs (pk, pcaps)).granteeId = pk.2 := rfl
    cases hb : ((finalizeEntry cp vcs (pk, pcaps)).granteeType == g.1 &&
        (finalizeEntry cp vcs (pk, pcaps)).granteeId == g.2) with
    | false =>
      have hne : ¬ pk = g := by
        intro h
        rw [hgt, hgi, h] at hb
        simp at hb
      rw [if_neg hne]
      exact ih
    | true =>
      rw [hgt, hgi, Bool.and_eq_true, beq_iff_eq, beq_iff_eq] at hb
      have heq : pk = g := Prod.ext hb.1 hb.2
      rw [if_pos heq, heq]
      rfl

theorem outputRecordOf_finalize (cp : String) (st : MergeState) (g : String × String) :
    outputRecordOf (finalizeRecords cp st) g = (dlookup st.records g).map (adjustCaps st.vcs g) := by
  unfold outputRecordOf finalizeRecords
  rw [find_map_finalize]
  cases dlookup st.records g <;> rfl

theorem outputCapLookup_eq (entries : List MergedEntry) (g : String × String) (n : String) :
    outputCapLookup entries g n =
      match outputRecordOf entries g with
      | some caps => dlookup caps n
      | none => none := by
  unfold outputCapLookup outputRecordOf
  cases entries.find? (fun e => e.granteeType == g.1 && e.granteeId == g.2) <;> rfl

end FinalizeTheorems

section CleanPassTheorems

theorem applyProjCaps_clean (caps : List (String × String)) (l : List (String × String))
    (h : (l.all fun c => (dlookup projectTemplates c.1).isNone) = true) :
    applyProjCaps caps l = dinsertAll caps l := by
  induction l generalizing caps with
  | nil => rfl
  | cons c t ih =>
    simp only [List.all_cons, Bool.and_eq_true] at h
    have hc : (dlookup projectTemplates c.1).isSome = false := by
      cases hx : dlookup projectTemplates c.1
      · rfl
      · rw [hx] at h
        simp [Option.isNone] at h
    have hstep : projCapStep caps c = dinsert caps c.1 c.2 := by
      simp [projCapStep, hc]
    calc applyProjCaps caps (c :: t) = applyProjCaps (projCapStep caps c) t := rfl
    _ = applyProjCaps (dinsert caps c.1 c.2) t := by rw [hstep]
    _ = dinsertAll (dinsert caps c.1 c.2) t := ih _ h.2
    _ = dinsertAll caps (c :: t) := rfl

theorem recCapLookup_init (g : String × String) (n : String) :
    recCapLookup initState g n = none := rfl

theorem recCapLookup_projPass_clean (rules : List PermRule) (st : MergeState)
    (g : String × String) (n : String)
    (hcaps : ((capsOf rules g).all fun c => (dlookup projectTemplates c.1).isNone) = true) :
    recCapLookup (projPass st rules) g n =
      match lastVal (capsOf rules g) n with
      | some v => some v
      | none => recCapLookup st g n := by
  unfold recCapLookup
  rw [projPass_records]
  by_cases hany : (rules.any fun r => gkeyOf r == g) = true
  · rw [if_pos hany, applyProjCaps_clean _ _ hcaps]
    show dlookup (dinsertAll ((dlookup st.records g).getD []) (capsOf rules g)) n = _
    rw [dlookup_dinsertAll]
    cases hprev : dlookup st.records g
    · simp only [Option.getD_none]
      cases lastVal (capsOf rules g) n <;> rfl
    · simp only [Option.getD_some]
      cases lastVal (capsOf rules g) n <;> rfl
  · rw [if_neg hany]
    rw [capsOf_nil_of_not_any rules g (by simpa using hany)]
    cases dlookup st.records g <;> rfl

theorem recCapLookup_defPass_clean (tmpl : List (String × List (String × String))) (pfx : String)
    (tv : Bool) (rules : List PermRule) (st : MergeState) (g : String × String) (n : String)
    (hnt : g ∉ st.templated)
    (hcaps : ((capsOf rules g).all fun c => (dlookup tmpl c.1).isNone) = true) :
    recCapLookup (defPass tmpl pfx tv st rules) g n =
      match lastVal (capsOfPrefixed rules g pfx) n with
      | some v => some v
      | none => recCapLookup st g n := by
  unfold recCapLookup
  rw [defPass_records_clean tmpl pfx tv rules st g hnt hcaps]
  by_cases hany : (rules.any fun r => gkeyOf r == g) = true
  · rw [if_pos hany]
    show dlookup (dinsertAll ((dlookup st.records g).getD []) (capsOfPrefixed rules g pfx)) n = _
    rw [dlookup_dinsertAll]
    cases hprev : dlookup st.records g
    · simp only [Option.getD_none]
      cases lastVal (capsOfPrefixed rules g pfx) n <;> rfl
    · simp only [Option.getD_some]
      cases lastVal (capsOfPrefixed rules g pfx) n <;> rfl
  · rw [if_neg hany]
    have : capsOfPrefixed rules g pfx = [] := by
      unfold capsOfPrefixed
      rw [capsOf_nil_of_not_any rules g (by simpa using hany)]
      rfl
    rw [this]
    cases dlookup st.records g <;> rfl

theorem recKeyAny_projPass_clean (rules : List PermRule) (st : MergeState)
    (g : String × String) (p : String → Bool)
    (hcaps : ((capsOf rules g).all fun c => (dlookup projectTemplates c.1).isNone) = true) :
    recKeyAny (projPass st rules) g p =
      (recKeyAny st g p || (capsOf rules g).any fun c => p c.1) := by
  unfold recKeyAny
  rw [projPass_records]
  by_cases hany : (rules.any fun r => gkeyOf r == g) = true
  · rw [if_pos hany, applyProjCaps_clean _ _ hcaps]
    show keyAny (dinsertAll ((dlookup st.records g).getD []) (capsOf rules g)) p = _
    rw [keyAny_dinsertAll]
    cases hprev : dlookup st.records g
    · simp [keyAny]
    · simp
  · rw [if_neg hany]
    rw [capsOf_nil_of_not_any rules g (by simpa using hany)]
    cases dlookup st.records g <;> simp

theorem recKeyAny_defPass_clean (tmpl : List (String × List (String × String))) (pfx : String)
    (tv : Bool) (rules : List PermRule) (st : MergeState) (g : String × String) (p : String → Bool)
    (hnt : g ∉ st.templated)
    (hcaps : ((capsOf rules g).all fun c => (dlookup tmpl c.1).isNone) = true) :
    recKeyAny (defPass tmpl pfx tv st rules) g p =
      (recKeyAny st g p || (capsOfPrefixed rules g pfx).any fun c => p c.1) := by
  unfold recKeyAny
  rw [defPass_records_clean tmpl pfx tv rules st g hnt hcaps]
  by_cases hany : (rules.any fun r => gkeyOf r == g) = true
  · rw [if_pos hany]
    show keyAny (dinsertAll ((dlookup st.records g).getD []) (capsOfPrefixed rules g pfx)) p = _
    rw [keyAny_dinsertAll]
    cases hprev : dlookup st.records g
    · simp [keyAny]
    · simp
  · rw [if_neg hany]
    have : capsOfPrefixed rules g pfx = [] := by
      unfold capsOfPrefixed
      rw [capsOf_nil_of_not_any rules g (by simpa using hany)]
      rfl
    rw [this]
    cases dlookup st.records g <;> simp

theorem lastVal_eq_none_iff {K V : Type} [DecidableEq K] (l : List (K × V)) (k : K) :
    lastVal l k = none ↔ ∀ c ∈ l, c.1 ≠ k := by
  induction l with
  | nil => simp [lastVal]
  | cons p t ih =>
    simp only [lastVal, List.mem_cons]
    cases hx : lastVal t k
    · rw [hx] at ih
      constructor
      · intro h c hc
        by_cases hp : p.1 = k
        · simp [hp] at h
        · rcases hc with rfl | hc
          · exact hp
          · exact (ih.mp rfl) c hc
      · intro h
        have hp : ¬ p.1 = k := h p (Or.inl rfl)
        simp [hp]
    · constructor
      · intro h
        cases h
      · intro h
        exfalso
        have ht : ∀ c ∈ t, c.1 ≠ k := fun c hc => h c (Or.inr hc)
        have hnone : lastVal t k = none := ih.mpr ht
        rw [hx] at hnone
        cases hnone

theorem noTmplCapsFor_all (tmpl : List (String × List (String × String)))
    (rules : List PermRule) (g : String × String) (h : noTmplCapsFor tmpl rules g = true) :
    ((capsOf rules g).all fun c => (dlookup tmpl c.1).isNone) = true := by
  induction rules with
  | nil => rfl
  | cons r t ih =>
    rw [noTmplCapsFor, List.all_cons, Bool.and_eq_true] at h
    rw [capsOf_cons]
    by_cases hg : gkeyOf r = g
    · rw [if_pos hg, List.all_append, Bool.and_eq_true]
      refine ⟨?_, ih h.2⟩
      have h1 := h.1
      rw [show (gkeyOf r == g) = true by simpa using hg] at h1
      simpa using h1
    · rw [if_neg hg]
      exact ih h.2

theorem all_isNone_any_isSome (tmpl : List (String × List (String × String)))
    (l : List (String × String))
    (h : (l.all fun c => (dlookup tmpl c.1).isNone) = true) :
    (l.any fun c => (dlookup tmpl c.1).isSome) = false := by
  induction l with
  | nil => rfl
  | cons c t ih =>
    rw [List.all_cons, Bool.and_eq_true] at h
    rw [List.any_cons, Bool.or_eq_false_iff]
    refine ⟨?_, ih h.2⟩
    cases hx : dlookup tmpl c.1
    · rfl
    · rw [hx] at h
      simp [Option.isNone] at h

end CleanPassTheorems

section MergeAssemblyTheorems

theorem projPass_templated_not (proj : List PermRule) (g : String × String)
    (h : ((capsOf proj g).all fun c => (dlookup projectTemplates c.1).isNone) = true) :
    g ∉ (projPass initState proj).templated := by
  rw [projPass_templated_mem]
  rintro (hin | hany)
  · simp [initState] at hin
  · rw [all_isNone_any_isSome projectTemplates _ h] at hany
    exact absurd hany Bool.false_ne_true

theorem mergeStates_templated (proj wb ds fl vc db tbl : List PermRule) :
    (mergeStates proj wb ds fl vc db tbl).templated = (projPass initState proj).templated := by
  unfold mergeStates
  rw [defPass_templated, defPass_templated, defPass_templated, defPass_templated,
    defPass_templated, defPass_templated]

theorem mergeStates_vcs_mem (proj wb ds fl vc db tbl : List PermRule) (g : String × String) :
    g ∈ (mergeStates proj wb ds fl vc db tbl).vcs ↔ (vc.any fun r => gkeyOf r == g) = true := by
  unfold mergeStates
  rw [defPass_vcs_mem, defPass_vcs_mem, defPass_vcs_mem, defPass_vcs_mem, defPass_vcs_mem,
    defPass_vcs_mem, projPass_vcs]
  simp [initState]

theorem defPass_records_skip_and_templated (tmpl : List (String × List (String × String)))
    (pfx : String) (tv : Bool) (rules : List PermRule) (st : MergeState) (g : String × String)
    (h : g ∈ st.templated) :
    dlookup (defPass tmpl pfx tv st rules).records g = dlookup st.records g ∧
      g ∈ (defPass tmpl pfx tv st rules).templated :=
  ⟨defPass_records_skip tmpl pfx tv rules st g h, by rw [defPass_templated]; exact h⟩

theorem mergeStates_records_skip (proj wb ds fl vc db tbl : List PermRule) (g : String × String)
    (h : g ∈ (projPass initState proj).templated) :
    dlookup (mergeStates proj wb ds fl vc db tbl).records g =
      dlookup (projPass initState proj).records g := by
  obtain ⟨q2, m2⟩ := defPass_records_skip_and_templated workbookTemplates "workbook_" false wb
    (projPass initState proj) g h
  obtain ⟨q3, m3⟩ := defPass_records_skip_and_templated datasourceTemplates "datasource_" false ds _ g m2
  obtain ⟨q4, m4⟩ := defPass_records_skip_and_templated flowTemplates "flow_" false fl _ g m3
  obtain ⟨q5, m5⟩ := defPass_records_skip_and_templated virtualconnectionTemplates "virtualconnection_" true vc _ g m4
  obtain ⟨q6, m6⟩ := defPass_records_skip_and_templated databaseTemplates "database_" false db _ g m5
  obtain ⟨q7, _⟩ := defPass_records_skip_and_templated tableTemplates "table_" false tbl _ g m6
  unfold mergeStates
  rw [q7, q6, q5, q4, q3, q2]

theorem mergeStates_recCapLookup (proj wb ds fl vc db tbl : List PermRule)
    (g : String × String) (n : String)
    (h1 : ((capsOf proj g).all fun c => (dlookup projectTemplates c.1).isNone) = true)
    (h2 : ((capsOf wb g).all fun c => (dlookup workbookTemplates c.1).isNone) = true)
    (h3 : ((capsOf ds g).all fun c => (dlookup datasourceTemplates c.1).isNone) = true)
    (h4 : ((capsOf fl g).all fun c => (dlookup flowTemplates c.1).isNone) = true)
    (h5 : ((capsOf vc g).all fun c => (dlookup virtualconnectionTemplates c.1).isNone) = true)
    (h6 : ((capsOf db g).all fun c => (dlookup databaseTemplates c.1).isNone) = true)
    (h7 : ((capsOf tbl g).all fun c => (dlookup tableTemplates c.1).isNone) = true) :
    recCapLookup (mergeStates proj wb ds fl vc db tbl) g n =
      lastVal (observedOf proj wb ds fl vc db tbl g) n := by
  have m1 : g ∉ (projPass initState proj).templated := projPass_templated_not proj g h1
  have m2 : g ∉ (defPass workbookTemplates "workbook_" false (projPass initState proj) wb).templated := by
    rw [defPass_templated]; exact m1
  have m3 : g ∉ (defPass datasourceTemplates "datasource_" false
      (defPass workbookTemplates "workbook_" false (projPass initState proj) wb) ds).templated := by
    rw [defPass_templated]; exact m2
  have m4 : g ∉ (defPass flowTemplates "flow_" false
      (defPass datasourceTemplates "datasource_" false
        (defPass workbookTemplates "workbook_" false (projPass initState proj) wb) ds) fl).templated := by
    rw [defPass_templated]; exact m3
  have m5 : g ∉ (defPass virtualconnectionTemplates "virtualconnection_" true
      (defPass flowTemplates "flow_" false
        (defPass datasourceTemplates "datasource_" false
          (defPass workbookTemplates "workbook_" false (projPass initState proj) wb) ds) fl) vc).templated := by
    rw [defPass_templated]; exact m4
  have m6 : g ∉ (defPass databaseTemplates "database_" false
      (defPass virtualconnectionTemplates "virtualconnection_" true
        (defPass flowTemplates "flow_" false
          (defPass datasourceTemplates "datasource_" false
            (defPass workbookTemplates "workbook_" false (projPass initState proj) wb) ds) fl) vc) db).templated := by
    rw [defPass_templated]; exact m5
  unfold mergeStates
  rw [recCapLookup_defPass_clean _ _ _ _ _ _ _ m6 h7,
    recCapLookup_defPass_clean _ _ _ _ _ _ _ m5 h6,
    recCapLookup_defPass_clean _ _ _ _ _ _ _ m4 h5,
    recCapLookup_defPass_clean _ _ _ _ _ _ _ m3 h4,
    recCapLookup_defPass_clean _ _ _ _ _ _ _ m2 h3,
    recCapLookup_defPass_clean _ _ _ _ _ _ _ m1 h2,
    recCapLookup_projPass_clean _ _ _ _ h1, recCapLookup_init]
  unfold observedOf
  rw [lastVal_append, lastVal_append, lastVal_append, lastVal_append, lastVal_append, lastVal_append]
  cases lastVal (capsOf proj g) n <;>
    cases lastVal (capsOfPrefixed wb g "workbook_") n <;>
    cases lastVal (capsOfPrefixed ds g "datasource_") n <;>
    cases lastVal (capsOfPrefixed fl g "flow_") n <;>
    cases lastVal (capsOfPrefixed vc g "virtualconnection_") n <;>
    cases lastVal (capsOfPrefixed db g "database_") n <;>
    cases lastVal (capsOfPrefixed tbl g "table_") n <;> rfl

theorem mergeStates_recKeyAny (proj wb ds fl vc db tbl : List PermRule)
    (g : String × String) (p : String → Bool)
    (h1 : ((capsOf proj g).all fun c => (dlookup projectTemplates c.1).isNone) = true)
    (h2 : ((capsOf wb g).all fun c => (dlookup workbookTemplates c.1).isNone) = true)
    (h3 : ((capsOf ds g).all fun c => (dlookup datasourceTemplates c.1).isNone) = true)
    (h4 : ((capsOf fl g).all fun c => (dlookup flowTemplates c.1).isNone) = true)
    (h5 : ((capsOf vc g).all fun c => (dlookup virtualconnectionTemplates c.1).isNone) = true)
    (h6 : ((capsOf db g).all fun c => (dlookup databaseTemplates c.1).isNone) = true)
    (h7 : ((capsOf tbl g).all fun c => (dlookup tableTemplates c.1).isNone) = true) :
    recKeyAny (mergeStates proj wb ds fl vc db tbl) g p =
      (observedOf proj wb ds fl vc db tbl g).any fun c => p c.1 := by
  have m1 : g ∉ (projPass initState proj).templated := projPass_templated_not proj g h1
  have m2 : g ∉ (defPass workbookTemplates "workbook_" false (projPass initState proj) wb).templated := by
    rw [defPass_templated]; exact m1
  have m3 : g ∉ (defPass datasourceTemplates "datasource_" false
      (defPass workbookTemplates "workbook_" false (projPass initState proj) wb) ds).templated := by
    rw [defPass_templated]; exact m2
  have m4 : g ∉ (defPass flowTemplates "flow_" false
      (defPass datasourceTemplates "datasource_" false
        (defPass workbookTemplates "workbook_" false (projPass initState proj) wb) ds) fl).templated := by
    rw [defPass_templated]; exact m3
  have m5 : g ∉ (defPass virtualconnectionTemplates "virtualconnection_" true
      (defPass flowTemplates "flow_" false
        (defPass datasourceTemplates "datasource_" false
          (defPass workbookTemplates "workbook_" false (projPass initState proj) wb) ds) fl) vc).templated := by
    rw [defPass_templated]; exact m4
  have m6 : g ∉ (defPass databaseTemplates "database_" false
      (defPass virtualconnectionTemplates "virtualconnection_" true
        (defPass flowTemplates "flow_" false
          (defPass datasourceTemplates "datasource_" false
            (defPass workbookTemplates "workbook_" false (projPass initState proj) wb) ds) fl) vc) db).templated := by
    rw [defPass_templated]; exact m5
  unfold mergeStates
  rw [recKeyAny_defPass_clean _ _ _ _ _ _ _ m6 h7,
    recKeyAny_defPass_clean _ _ _ _ _ _ _ m5 h6,
    recKeyAny_defPass_clean _ _ _ _ _ _ _ m4 h5,
    recKeyAny_defPass_clean _ _ _ _ _ _ _ m3 h4,
    recKeyAny_defPass_clean _ _ _ _ _ _ _ m2 h3,
    recKeyAny_defPass_clean _ _ _ _ _ _ _ m1 h2,
    recKeyAny_projPass_clean _ _ _ _ h1]
  show ((((((((recKeyAny initState g p || _) || _) || _) || _) || _) || _) || _) = _)
  rw [show recKeyAny initState g p = false from rfl]
  unfold observedOf
  simp [Bool.or_assoc]

theorem mergeStates_records_isSome_of_vcAny (proj wb ds fl vc db tbl : List PermRule)
    (g : String × String)
    (h1 : ((capsOf proj g).all fun c => (dlookup projectTemplates c.1).isNone) = true)
    (h5 : ((capsOf vc g).all fun c => (dlookup virtualconnectionTemplates c.1).isNone) = true)
    (h6 : ((capsOf db g).all fun c => (dlookup databaseTemplates c.1).isNone) = true)
    (h7 : ((capsOf tbl g).all fun c => (dlookup tableTemplates c.1).isNone) = true)
    (hvc : (vc.any fun r => gkeyOf r == g) = true) :
    dlookup (mergeStates proj wb ds fl vc db tbl).records g ≠ none := by
  have m1 : g ∉ (projPass initState proj).templated := projPass_templated_not proj g h1
  have m4 : g ∉ (defPass flowTemplates "flow_" false
      (defPass datasourceTemplates "datasource_" false
        (defPass workbookTemplates "workbook_" false (projPass initState proj) wb) ds) fl).templated := by
    rw [defPass_templated, defPass_templated, defPass_templated]; exact m1
  have m5 : g ∉ (defPass virtualconnectionTemplates "virtualconnection_" true
      (defPass flowTemplates "flow_" false
        (defPass datasourceTemplates "datasource_" false
          (defPass workbookTemplates "workbook_" false (projPass initState proj) wb) ds) fl) vc).templated := by
    rw [defPass_templated]; exact m4
  have m6 : g ∉ (defPass databaseTemplates "database_" false
      (defPass virtualconnectionTemplates "virtualconnection_" true
        (defPass flowTemplates "flow_" false
          (defPass datasourceTemplates "datasource_" false
            (defPass workbookTemplates "workbook_" false (projPass initState proj) wb) ds) fl) vc) db).templated := by
    rw [defPass_templated]; exact m5
  have hvc5 : dlookup (defPass virtualconnectionTemplates "virtualconnection_" true
      (defPass flowTemplates "flow_" false
        (defPass datasourceTemplates "datasource_" false
          (defPass workbookTemplates "workbook_" false (projPass initState proj) wb) ds) fl) vc).records g ≠
      none := by
    rw [defPass_records_clean _ _ _ _ _ _ m4 h5, if_pos hvc]
    exact Option.some_ne_none _
  have hvc6 : dlookup (defPass databaseTemplates "database_" false
      (defPass virtualconnectionTemplates "virtualconnection_" true
        (defPass flowTemplates "flow_" false
          (defPass datasourceTemplates "datasource_" false
            (defPass workbookTemplates "workbook_" false (projPass initState proj) wb) ds) fl) vc) db).records g ≠
      none := by
    rw [defPass_records_clean _ _ _ _ _ _ m5 h6]
    by_cases hdb : (db.any fun r => gkeyOf r == g) = true
    · rw [if_pos hdb]; exact Option.some_ne_none _
    · rw [if_neg hdb]; exact hvc5
  unfold mergeStates
  rw [defPass_records_clean _ _ _ _ _ _ m6 h7]
  by_cases htbl : (tbl.any fun r => gkeyOf r == g) = true
  · rw [if_pos htbl]; exact Option.some_ne_none _
  · rw [if_neg htbl]; exact hvc6

end MergeAssemblyTheorems

section ClaimC4

/-- C4 (amended): for a grantee with no template capability in any source, the
merged capability lookup equals the union of the content-kind-namespaced raw
capabilities observed for that grantee across all sources, the last
observation of a namespaced name winning, plus a virtualconnection_Write
entry with the No API Endpoint sentinel added exactly when the grantee was
seen in the virtual-connection source or observed some
virtualconnection-namespaced capability while never observing
virtualconnection_Write itself. -/
theorem claim_C4_thm (cp : String) (proj wb ds fl vc db tbl : List PermRule)
    (g : String × String) (n : String)
    (h : noTemplateFor proj wb ds fl vc db tbl g = true) :
    outputCapLookup (mergeProject cp proj wb ds fl vc db tbl) g n =
      c4SpecLookup proj wb ds fl vc db tbl g n := by
  simp only [noTemplateFor, Bool.and_eq_true] at h
  obtain ⟨⟨⟨⟨⟨⟨hp, hw⟩, hd⟩, hf⟩, hv⟩, hb⟩, ht⟩ := h
  have h1 := noTmplCapsFor_all _ _ _ hp
  have h2 := noTmplCapsFor_all _ _ _ hw
  have h3 := noTmplCapsFor_all _ _ _ hd
  have h4 := noTmplCapsFor_all _ _ _ hf
  have h5 := noTmplCapsFor_all _ _ _ hv
  have h6 := noTmplCapsFor_all _ _ _ hb
  have h7 := noTmplCapsFor_all _ _ _ ht
  have hcapAll : ∀ m, recCapLookup (mergeStates proj wb ds fl vc db tbl) g m =
      lastVal (observedOf proj wb ds fl vc db tbl g) m :=
    fun m => mergeStates_recCapLookup proj wb ds fl vc db tbl g m h1 h2 h3 h4 h5 h6 h7
  have hkey := mergeStates_recKeyAny proj wb ds fl vc db tbl g
    (fun s => strStartsB s "virtualconnection_") h1 h2 h3 h4 h5 h6 h7
  have hvcsIff := mergeStates_vcs_mem proj wb ds fl vc db tbl g
  rw [show mergeProject cp proj wb ds fl vc db tbl =
        finalizeRecords cp (mergeStates proj wb ds fl vc db tbl) from rfl,
    outputCapLookup_eq, outputRecordOf_finalize]
  cases hrec : dlookup (mergeStates proj wb ds fl vc db tbl).records g with
  | none =>
    have hlvn : ∀ m, lastVal (observedOf proj wb ds fl vc db tbl g) m = none := by
      intro m
      have hx := hcapAll m
      simp only [recCapLookup, hrec] at hx
      exact hx.symm
    have hobsany : ((observedOf proj wb ds fl vc db tbl g).any
        fun c => strStartsB c.1 "virtualconnection_") = false := by
      have hx := hkey
      simp only [recKeyAny, hrec] at hx
      exact hx.symm
    have hvca : (vc.any fun r => gkeyOf r == g) = false := by
      cases hx : (vc.any fun r => gkeyOf r == g)
      · rfl
      · exact absurd hrec (mergeStates_records_isSome_of_vcAny proj wb ds fl vc db tbl g h1 h5 h6 h7 hx)
    show (none : Option String) = c4SpecLookup proj wb ds fl vc db tbl g n
    unfold c4SpecLookup
    by_cases hn : n = "virtualconnection_Write"
    · rw [if_pos hn, hlvn n]
      simp [hvca, hobsany]
    · rw [if_neg hn, hlvn n]
  | some caps =>
    have hlk : ∀ m, dlookup caps m = lastVal (observedOf proj wb ds fl vc db tbl g) m := by
      intro m
      have hx := hcapAll m
      simp only [recCapLookup, hrec] at hx
      exact hx
    have hka : keyAny caps (fun s => strStartsB s "virtualconnection_") =
        ((observedOf proj wb ds fl vc db tbl g).any fun c => strStartsB c.1 "virtualconnection_") := by
      have hx := hkey
      simp only [recKeyAny, hrec] at hx
      exact hx
    show dlookup (adjustCaps (mergeStates proj wb ds fl vc db tbl).vcs g caps) n =
      c4SpecLookup proj wb ds fl vc db tbl g n
    unfold adjustCaps
    by_cases hcond : g ∈ (mergeStates proj wb ds fl vc db tbl).vcs ∨
        keyAny caps (fun s => strStartsB s "virtualconnection_") = true
    · rw [if_pos hcond]
      by_cases hvcw : dlookup caps "virtualconnection_Write" = none
      · rw [if_pos hvcw, dlookup_dinsert]
        unfold c4SpecLookup
        by_cases hn : n = "virtualconnection_Write"
        · rw [if_pos hn, if_pos hn]
          have hlvw : lastVal (observedOf proj wb ds fl vc db tbl g) n = none := by
            rw [← hlk n, hn]
            exact hvcw
          rw [hlvw]
          have hcondB : ((vc.any fun r => gkeyOf r == g) ||
              ((observedOf proj wb ds fl vc db tbl g).any
                fun c => strStartsB c.1 "virtualconnection_")) = true := by
            rcases hcond with hin | hk
            · simp [hvcsIff.mp hin]
            · rw [hka] at hk
              simp [hk]
          simp [hcondB]
        · rw [if_neg hn, if_neg hn, hlk n]
      · rw [if_neg hvcw]
        unfold c4SpecLookup
        by_cases hn : n = "virtualconnection_Write"
        · rw [if_pos hn]
          cases hx : dlookup caps "virtualconnection_Write" with
          | none => exact absurd hx hvcw
          | some v =>
            have hlvw : lastVal (observedOf proj wb ds fl vc db tbl g) n = some v := by
              rw [← hlk n, hn]
              exact hx
            rw [hlvw, hn]
            exact hx
        · rw [if_neg hn, hlk n]
    · rw [if_neg hcond]
      have hcond' := not_or.mp hcond
      have hvca : (vc.any fun r => gkeyOf r == g) = false := by
        cases hx : (vc.any fun r => gkeyOf r == g)
        · rfl
        · exact absurd (hvcsIff.mpr hx) hcond'.1
      have hobs : ((observedOf proj wb ds fl vc db tbl g).any
          fun c => strStartsB c.1 "virtualconnection_") = false := by
        rw [← hka]
        cases hx : keyAny caps (fun s => strStartsB s "virtualconnection_")
        · rfl
        · exact absurd hx hcond'.2
      unfold c4SpecLookup
      by_cases hn : n = "virtualconnection_Write"
      · rw [if_pos hn]
        have hvcw : dlookup caps "virtualconnection_Write" = none := by
          cases hx : dlookup caps "virtualconnection_Write" with
          | none => rfl
          | some v =>
            exact absurd (dlookup_isSome_keyAny caps _ v _ hx (by decide)) hcond'.2
        have hlvw : lastVal (observedOf proj wb ds fl vc db tbl g) n = none := by
          rw [← hlk n, hn]
          exact hvcw
        rw [hlvw]
        simp only [hvca, hobs, Bool.or_self, Bool.false_eq_true, if_false]
        rw [hn]
        exact hvcw
      · rw [if_neg hn, hlk n]

end ClaimC4

section TemplateLookupTheorems

theorem lastVal_fullExpansion (nm : String × String) (h : nm ∈ fullExpansionList) :
    lastVal fullExpansionList nm.1 = some nm.2 := by
  have hall : (fullExpansionList.all fun p => lastVal fullExpansionList p.1 == some p.2) = true := by
    decide
  have := List.all_eq_true.mp hall nm h
  simpa using this

theorem applyProjCaps_cons (a : List (String × String)) (c : String × String)
    (l : List (String × String)) :
    applyProjCaps a (c :: l) = applyProjCaps (projCapStep a c) l := rfl

theorem applyProjCaps_nil (a : List (String × String)) : applyProjCaps a [] = a := rfl

theorem projCapStep_template (a : List (String × String)) (mo : String) :
    projCapStep a ("InheritedProjectLeader", mo) = dinsertAll a fullExpansionList := by
  have hx : (dlookup projectTemplates "InheritedProjectLeader").isSome = true := by decide
  show (if (dlookup projectTemplates "InheritedProjectLeader").isSome = true
      then dinsertAll a (templateExpansionFor "InheritedProjectLeader")
      else dinsert a "InheritedProjectLeader" mo) = dinsertAll a fullExpansionList
  rw [if_pos hx]
  rfl

theorem dlookup_applyProjCaps_tail (a : List (String × String)) (l2 : List (String × String))
    (name : String)
    (hl2 : (l2.all fun c => !(fullExpansionList.any fun q => q.1 == c.1) &&
        (dlookup projectTemplates c.1).isNone) = true)
    (hname : (fullExpansionList.any fun q => q.1 == name) = true) :
    dlookup (applyProjCaps a l2) name = dlookup a name := by
  induction l2 generalizing a with
  | nil => rfl
  | cons c t ih =>
    rw [List.all_cons, Bool.and_eq_true] at hl2
    obtain ⟨hc, ht⟩ := hl2
    rw [Bool.and_eq_true] at hc
    have hnone : (dlookup projectTemplates c.1).isSome = false := by
      cases hx : dlookup projectTemplates c.1
      · rfl
      · have := hc.2
        rw [hx] at this
        simp [Option.isNone] at this
    have hstep : projCapStep a c = dinsert a c.1 c.2 := by
      simp [projCapStep, hnone]
    have hne : ¬ name = c.1 := by
      intro e
      have hfc : (fullExpansionList.any fun q => q.1 == c.1) = false := by
        cases hx : (fullExpansionList.any fun q => q.1 == c.1)
        · rfl
        · have := hc.1
          rw [hx] at this
          simp at this
      rw [← e] at hfc
      rw [hname] at hfc
      cases hfc
    calc dlookup (applyProjCaps a (c :: t)) name
        = dlookup (applyProjCaps (projCapStep a c) t) name := rfl
      _ = dlookup (projCapStep a c) name := ih _ ht
      _ = dlookup (dinsert a c.1 c.2) name := by rw [hstep]
      _ = dlookup a name := by rw [dlookup_dinsert, if_neg hne]

end TemplateLookupTheorems

section ClaimC1

set_option maxHeartbeats 1000000 in
/-- C1 (amended): for every project merge in which a grantee's project-level
capability sequence contains the InheritedProjectLeader template and no later
project-level capability for that grantee reuses a name of the fixed
expansion set (nor is itself a template name), the grantee's merged record
contains the entire fixed expansion set for the project level and for every
nested content-kind, including virtualconnection_Write with mode No API
Endpoint, and every capability contribution for that grantee from the later
default-permission sources is discarded (its record is unchanged by those
sources). -/
theorem claim_C1_thm (cp : String) (proj wb ds fl vc db tbl : List PermRule)
    (g : String × String) (l1 l2 : List (String × String)) (mo : String) (nm : String × String)
    (hsplit : capsOf proj g = l1 ++ ("InheritedProjectLeader", mo) :: l2)
    (htail : (l2.all fun c => !(fullExpansionList.any fun q => q.1 == c.1) &&
        (dlookup projectTemplates c.1).isNone) = true)
    (hmem : nm ∈ fullExpansionList) :
    outputCapLookup (mergeProject cp proj wb ds fl vc db tbl) g nm.1 = some nm.2 ∧
    dlookup (mergeStates proj wb ds fl vc db tbl).records g =
      dlookup (projPass initState proj).records g := by
  have hipl : ((capsOf proj g).any fun c => (dlookup projectTemplates c.1).isSome) = true := by
    rw [hsplit, List.any_append, List.any_cons]
    have hx : (dlookup projectTemplates "InheritedProjectLeader").isSome = true := by decide
    simp [hx]
  have htmpl : g ∈ (projPass initState proj).templated := by
    rw [projPass_templated_mem]
    exact Or.inr hipl
  have hskip := mergeStates_records_skip proj wb ds fl vc db tbl g htmpl
  have hany : (proj.any fun r => gkeyOf r == g) = true := by
    cases hx : (proj.any fun r => gkeyOf r == g)
    · exfalso
      have hnil := capsOf_nil_of_not_any proj g hx
      rw [hnil] at hsplit
      cases l1 <;> simp at hsplit
    · rfl
  have hrec1 : dlookup (projPass initState proj).records g =
      some (applyProjCaps [] (capsOf proj g)) := by
    rw [projPass_records, if_pos hany]
    rfl
  have hcapsAll : ∀ nm' : String × String, nm' ∈ fullExpansionList →
      dlookup (applyProjCaps [] (capsOf proj g)) nm'.1 = some nm'.2 := by
    intro nm' hm'
    have hnameany : (fullExpansionList.any fun q => q.1 == nm'.1) = true :=
      List.any_eq_true.mpr ⟨nm', hm', by simp⟩
    rw [hsplit, applyProjCaps_append]
    rw [applyProjCaps_cons, projCapStep_template, dlookup_applyProjCaps_tail _ l2 nm'.1 htail hnameany,
      dlookup_dinsertAll, lastVal_fullExpansion nm' hm']
  have hvcw : dlookup (applyProjCaps [] (capsOf proj g)) "virtualconnection_Write" =
      some "No API Endpoint" :=
    hcapsAll ("virtualconnection_Write", "No API Endpoint") (by decide)
  have hrecst : dlookup (mergeStates proj wb ds fl vc db tbl).records g =
      some (applyProjCaps [] (capsOf proj g)) := by
    rw [hskip, hrec1]
  refine ⟨?_, hskip⟩
  rw [show mergeProject cp proj wb ds fl vc db tbl =
        finalizeRecords cp (mergeStates proj wb ds fl vc db tbl) from rfl,
    outputCapLookup_eq, outputRecordOf_finalize, hrecst]
  show dlookup (adjustCaps (mergeStates proj wb ds fl vc db tbl).vcs g
      (applyProjCaps [] (capsOf proj g))) nm.1 = some nm.2
  have hadj : adjustCaps (mergeStates proj wb ds fl vc db tbl).vcs g
      (applyProjCaps [] (capsOf proj g)) = applyProjCaps [] (capsOf proj g) := by
    unfold adjustCaps
    by_cases hcond : g ∈ (mergeStates proj wb ds fl vc db tbl).vcs ∨
        keyAny (applyProjCaps [] (capsOf proj g)) (fun n => strStartsB n "virtualconnection_") = true
    · rw [if_pos hcond, if_neg (by rw [hvcw]; exact Option.some_ne_none _)]
    · rw [if_neg hcond]
  rw [hadj]
  exact hcapsAll nm hmem

/-- Witness for claim C1: a grantee whose only project-level capability is the
template receives the Read entry of the expansion, and its record is
unchanged by the default-permission passes. -/
theorem claim_C1_witness :
    (capsOf [⟨"group", "Analysts", [("InheritedProjectLeader", "Allow")]⟩] ("group", "Analysts") =
      [] ++ ("InheritedProjectLeader", "Allow") :: []) ∧
    (outputCapLookup (mergeProject ""
        [⟨"group", "Analysts", [("InheritedProjectLeader", "Allow")]⟩] [] [] [] [] [] [])
        ("group", "Analysts") ("Read", "Allow").1 = some ("Read", "Allow").2 ∧
      dlookup (mergeStates [⟨"group", "Analysts", [("InheritedProjectLeader", "Allow")]⟩]
          [] [] [] [] [] []).records ("group", "Analysts") =
        dlookup (projPass initState
          [⟨"group", "Analysts", [("InheritedProjectLeader", "Allow")]⟩]).records ("group", "Analysts")) :=
  ⟨by decide,
   claim_C1_thm "" [⟨"group", "Analysts", [("InheritedProjectLeader", "Allow")]⟩] [] [] [] [] [] []
     ("group", "Analysts") [] [] "Allow" ("Read", "Allow") (by decide) (by decide) (by decide)⟩

/-- Counterexample to claim C1 as stated: a project-level rule that contains
the template and afterwards a raw Read capability with mode Deny yields a
merged record whose Read entry is Deny, not the Allow of the fixed expansion
set, so the record does not contain the entire expansion. -/
theorem claim_C1_counterexample :
    (("Read", "Allow") ∈ fullExpansionList) ∧
    outputCapLookup (mergeProject ""
        [⟨"group", "Analysts", [("InheritedProjectLeader", "Allow"), ("Read", "Deny")]⟩]
        [] [] [] [] [] []) ("group", "Analysts") "Read" = some "Deny" := by
  decide

end ClaimC1

section ClaimC2

/-- C2 (amended): only the project-level source marks a grantee
template-applied; there a template capability injects the expansions for the
project level and every nested content-kind, overwriting entries of the same
namespaced name.  In a default-permission source, a template capability of an
unmarked grantee injects only that source's content-kind expansion
(overwriting) and leaves the template-applied set unchanged. -/
theorem claim_C2_thm (st : MergeState) (t i mo n : String)
    (tmpl : List (String × List (String × String))) (pfx : String) (tv : Bool)
    (exp : List (String × String))
    (hexp : dlookup tmpl "InheritedProjectLeader" = some exp)
    (hunm : (t, i) ∉ st.templated) :
    ((t, i) ∈ (processProjectPerm st ⟨t, i, [("InheritedProjectLeader", mo)]⟩).templated ∧
     dlookup ((dlookup (processProjectPerm st ⟨t, i, [("InheritedProjectLeader", mo)]⟩).records
         (t, i)).getD []) n =
       ofirst (lastVal fullExpansionList n) (dlookup ((dlookup st.records (t, i)).getD []) n)) ∧
    ((processDefaultPerm tmpl pfx tv st ⟨t, i, [("InheritedProjectLeader", mo)]⟩).templated =
        st.templated ∧
     dlookup ((dlookup (processDefaultPerm tmpl pfx tv st
         ⟨t, i, [("InheritedProjectLeader", mo)]⟩).records (t, i)).getD []) n =
       ofirst (lastVal exp n) (dlookup ((dlookup st.records (t, i)).getD []) n)) := by
  have hkey : gkeyOf ⟨t, i, [("InheritedProjectLeader", mo)]⟩ = (t, i) := rfl
  refine ⟨⟨?_, ?_⟩, ?_, ?_⟩
  · rw [processProject_templated_mem]
    refine Or.inr ⟨?_, hkey⟩
    have hx : (dlookup projectTemplates "InheritedProjectLeader").isSome = true := by decide
    simp [hx]
  · rw [processProject_records_lookup, hkey, if_pos rfl]
    have h1 : applyProjCaps ((dlookup st.records (t, i)).getD []) [("InheritedProjectLeader", mo)] =
        dinsertAll ((dlookup st.records (t, i)).getD []) fullExpansionList := by
      rw [applyProjCaps_cons, projCapStep_template, applyProjCaps_nil]
    rw [h1]
    simp only [Option.getD_some]
    exact dlookup_dinsertAll_ofirst ((dlookup st.records (t, i)).getD []) fullExpansionList n
  · exact processDefault_templated tmpl pfx tv st _
  · have hself := processDefault_records_self tmpl pfx tv st
      ⟨t, i, [("InheritedProjectLeader", mo)]⟩ hunm
    rw [hkey] at hself
    rw [hself]
    simp only [Option.getD_some]
    have h2 : applyDefCaps tmpl pfx ((dlookup st.records (t, i)).getD [])
        [("InheritedProjectLeader", mo)] =
        dinsertAll ((dlookup st.records (t, i)).getD []) exp := by
      show (match dlookup tmpl "InheritedProjectLeader" with
        | some e => dinsertAll ((dlookup st.records (t, i)).getD []) e
        | none => dinsert ((dlookup st.records (t, i)).getD []) (pfx ++ "InheritedProjectLeader") mo) =
        dinsertAll ((dlookup st.records (t, i)).getD []) exp
      rw [hexp]
    rw [h2]
    exact dlookup_dinsertAll_ofirst ((dlookup st.records (t, i)).getD []) exp n

/-- Witness for claim C2: at the empty state, a workbook-source template rule
for an unmarked grantee behaves as the amended claim says. -/
theorem claim_C2_witness :
    (dlookup workbookTemplates "InheritedProjectLeader" =
      some ((dlookup workbookTemplates "InheritedProjectLeader").getD [])) ∧
    (("group", "G") ∉ initState.templated) ∧
    ((("group", "G") ∈ (processProjectPerm initState
          ⟨"group", "G", [("InheritedProjectLeader", "Allow")]⟩).templated ∧
      dlookup ((dlookup (processProjectPerm initState
          ⟨"group", "G", [("InheritedProjectLeader", "Allow")]⟩).records ("group", "G")).getD [])
          "workbook_Read" =
        ofirst (lastVal fullExpansionList "workbook_Read")
          (dlookup ((dlookup initState.records ("group", "G")).getD []) "workbook_Read")) ∧
     ((processDefaultPerm workbookTemplates "workbook_" false initState
          ⟨"group", "G", [("InheritedProjectLeader", "Allow")]⟩).templated = initState.templated ∧
      dlookup ((dlookup (processDefaultPerm workbookTemplates "workbook_" false initState
          ⟨"group", "G", [("InheritedProjectLeader", "Allow")]⟩).records ("group", "G")).getD [])
          "workbook_Read" =
        ofirst (lastVal ((dlookup workbookTemplates "InheritedProjectLeader").getD []) "workbook_Read")
          (dlookup ((dlookup initState.records ("group", "G")).getD []) "workbook_Read"))) :=
  ⟨by decide, by decide,
   claim_C2_thm initState "group" "G" "Allow" "workbook_Read" workbookTemplates "workbook_" false
     ((dlookup workbookTemplates "InheritedProjectLeader").getD []) (by decide) (by decide)⟩

/-- Counterexample to claim C2 as stated: a template capability found in the
workbook default-permission source neither marks the grantee template-applied
nor injects the expansions of the other content-kinds, and a later raw
datasource capability for the same grantee is stored rather than dropped. -/
theorem claim_C2_counterexample :
    (("datasource_Connect", "Allow") ∈ (dlookup datasourceTemplates "InheritedProjectLeader").getD []) ∧
    (("group", "G") ∉ (mergeStates [] [⟨"group", "G", [("InheritedProjectLeader", "Allow")]⟩]
        [⟨"group", "G", [("Read", "Deny")]⟩] [] [] [] []).templated) ∧
    outputCapLookup (mergeProject "" [] [⟨"group", "G", [("InheritedProjectLeader", "Allow")]⟩]
        [⟨"group", "G", [("Read", "Deny")]⟩] [] [] [] []) ("group", "G") "datasource_Connect" = none ∧
    outputCapLookup (mergeProject "" [] [⟨"group", "G", [("InheritedProjectLeader", "Allow")]⟩]
        [⟨"group", "G", [("Read", "Deny")]⟩] [] [] [] []) ("group", "G") "datasource_Read" = some "Deny" := by
  decide

end ClaimC2

section ClaimC3

/-- C3 (amended): template marking happens only in the project-level source.
For a grantee already marked, every later default-permission rule for it is
skipped entirely, so non-template and template capabilities alike are
dropped; within the project-level source nothing is dropped for a marked
grantee: a non-template capability is stored under its own name, overwriting
any entry of the same name. -/
theorem claim_C3_thm (tmpl : List (String × List (String × String))) (pfx : String) (tv : Bool)
    (rules : List PermRule) (st : MergeState) (g : String × String) (c mo : String)
    (h1 : g ∈ st.templated) (h2 : dlookup projectTemplates c = none) :
    dlookup (defPass tmpl pfx tv st rules).records g = dlookup st.records g ∧
    dlookup ((dlookup (processProjectPerm st ⟨g.1, g.2, [(c, mo)]⟩).records g).getD []) c =
      some mo := by
  refine ⟨defPass_records_skip tmpl pfx tv rules st g h1, ?_⟩
  have hkey : gkeyOf ⟨g.1, g.2, [(c, mo)]⟩ = g := rfl
  rw [processProject_records_lookup, hkey, if_pos rfl]
  simp only [Option.getD_some]
  have hnone : (dlookup projectTemplates c).isSome = false := by
    rw [h2]
    rfl
  have hstep : projCapStep ((dlookup st.records g).getD []) (c, mo) =
      dinsert ((dlookup st.records g).getD []) c mo := by
    simp [projCapStep, hnone]
  rw [show applyProjCaps ((dlookup st.records g).getD []) [(c, mo)] =
        projCapStep ((dlookup st.records g).getD []) (c, mo) from rfl,
    hstep, dlookup_dinsert, if_pos rfl]

/-- Witness for claim C3: a marked grantee's record is untouched by a
workbook default-permission pass, while a project-level raw capability for
the same marked grantee is still stored. -/
theorem claim_C3_witness :
    (("group", "T") ∈ (⟨[], [("group", "T")], []⟩ : MergeState).templated) ∧
    (dlookup (defPass workbookTemplates "workbook_" false (⟨[], [("group", "T")], []⟩ : MergeState)
        [⟨"group", "T", [("Read", "Allow")]⟩]).records ("group", "T") =
      dlookup (⟨[], [("group", "T")], []⟩ : MergeState).records ("group", "T") ∧
     dlookup ((dlookup (processProjectPerm (⟨[], [("group", "T")], []⟩ : MergeState)
        ⟨("group", "T").1, ("group", "T").2, [("Read", "Deny")]⟩).records ("group", "T")).getD [])
        "Read" = some "Deny") :=
  ⟨by decide,
   claim_C3_thm workbookTemplates "workbook_" false [⟨"group", "T", [("Read", "Allow")]⟩]
     ⟨[], [("group", "T")], []⟩ ("group", "T") "Read" "Deny" (by decide) (by decide)⟩

/-- Counterexample to claim C3 as stated: a non-template capability following
the template within the same project-level rule is stored (overwriting the
expansion entry Write=Allow with Deny) instead of being dropped, and a
template found later in the workbook source does not re-inject its expansion
for a marked grantee (workbook_Read stays Deny). -/
theorem claim_C3_counterexample :
    (("Write", "Allow") ∈ fullExpansionList) ∧
    outputCapLookup (mergeProject ""
        [⟨"group", "G", [("InheritedProjectLeader", "Allow"), ("Write", "Deny")]⟩]
        [] [] [] [] [] []) ("group", "G") "Write" = some "Deny" ∧
    (("workbook_Read", "Allow") ∈ (dlookup workbookTemplates "InheritedProjectLeader").getD []) ∧
    outputCapLookup (mergeProject ""
        [⟨"group", "G", [("InheritedProjectLeader", "Allow"), ("workbook_Read", "Deny")]⟩]
        [⟨"group", "G", [("InheritedProjectLeader", "Allow")]⟩] [] [] [] [] [])
        ("group", "G") "workbook_Read" = some "Deny" := by
  decide

end ClaimC3

section ClaimC5

/-- C5 (amended): every grantee whose merged record contains any
virtualconnection-namespaced capability has a virtualconnection_Write entry;
its mode is the one the merge accumulated when any source stored
virtualconnection_Write (via a template or a raw capability), and the No API
Endpoint sentinel otherwise. -/
theorem claim_C5_thm (cp : String) (proj wb ds fl vc db tbl : List PermRule)
    (g : String × String)
    (h : ((outputRecordOf (mergeProject cp proj wb ds fl vc db tbl) g).getD []).any
        (fun c => strStartsB c.1 "virtualconnection_") = true) :
    dlookup ((outputRecordOf (mergeProject cp proj wb ds fl vc db tbl) g).getD [])
        "virtualconnection_Write" =
      ofirst (recCapLookup (mergeStates proj wb ds fl vc db tbl) g "virtualconnection_Write")
        (some "No API Endpoint") := by
  rw [show mergeProject cp proj wb ds fl vc db tbl =
        finalizeRecords cp (mergeStates proj wb ds fl vc db tbl) from rfl] at h ⊢
  rw [outputRecordOf_finalize] at h ⊢
  unfold recCapLookup
  cases hrec : dlookup (mergeStates proj wb ds fl vc db tbl).records g with
  | none =>
    rw [hrec] at h
    simp at h
  | some caps =>
    rw [hrec] at h
    have h2 : (adjustCaps (mergeStates proj wb ds fl vc db tbl).vcs g caps).any
        (fun c => strStartsB c.1 "virtualconnection_") = true := h
    show dlookup (adjustCaps (mergeStates proj wb ds fl vc db tbl).vcs g caps)
        "virtualconnection_Write" =
      ofirst (dlookup caps "virtualconnection_Write") (some "No API Endpoint")
    unfold adjustCaps at h2 ⊢
    by_cases hcond : g ∈ (mergeStates proj wb ds fl vc db tbl).vcs ∨
        keyAny caps (fun n => strStartsB n "virtualconnection_") = true
    · rw [if_pos hcond]
      by_cases hvcw : dlookup caps "virtualconnection_Write" = none
      · rw [if_pos hvcw, dlookup_dinsert, if_pos rfl, hvcw]
        rfl
      · rw [if_neg hvcw]
        cases hx : dlookup caps "virtualconnection_Write" with
        | none => exact absurd hx hvcw
        | some v => rfl
    · rw [if_neg hcond] at h2
      exact absurd (Or.inr h2) hcond

/-- Witness for claim C5: a grantee with one raw virtual-connection Read
capability gets the virtualconnection_Write sentinel. -/
theorem claim_C5_witness :
    ((outputRecordOf (mergeProject "" [] [] [] [] [⟨"group", "G", [("Read", "Allow")]⟩] [] [])
        ("group", "G")).getD []).any (fun c => strStartsB c.1 "virtualconnection_") = true ∧
    dlookup ((outputRecordOf (mergeProject "" [] [] [] [] [⟨"group", "G", [("Read", "Allow")]⟩] [] [])
        ("group", "G")).getD []) "virtualconnection_Write" =
      ofirst (recCapLookup (mergeStates [] [] [] [] [⟨"group", "G", [("Read", "Allow")]⟩] [] [])
          ("group", "G") "virtualconnection_Write") (some "No API Endpoint") :=
  ⟨by decide,
   claim_C5_thm "" [] [] [] [] [⟨"group", "G", [("Read", "Allow")]⟩] [] [] ("group", "G") (by decide)⟩

/-- Counterexample to claim C5 as stated: a raw virtual-connection Write
capability with mode Deny — no template anywhere in the input — leaves the
merged virtualconnection_Write entry at Deny, not at the No API Endpoint
sentinel, although it was not set by a template. -/
theorem claim_C5_counterexample :
    (([⟨"group", "G", [("Read", "Allow"), ("Write", "Deny")]⟩] : List PermRule).all
        (fun r => r.capabilities.all fun c => !(c.1 == "InheritedProjectLeader")) = true) ∧
    outputCapLookup (mergeProject "" [] [] [] []
        [⟨"group", "G", [("Read", "Allow"), ("Write", "Deny")]⟩] [] [])
        ("group", "G") "virtualconnection_Write" = some "Deny" ∧
    ("Deny" : String) ≠ "No API Endpoint" := by
  refine ⟨by decide, by decide, by decide⟩

end ClaimC5

section CsvSupportTheorems

theorem mem_setOfList (l : List String) (x : String) : x ∈ setOfList l ↔ x ∈ l := by
  unfold setOfList
  rw [mem_foldl_addKey]
  simp

theorem nodup_setOfList (l : List String) : (setOfList l).Nodup :=
  nodup_foldl_addKey l [] (by simp)

theorem contains_iff_mem (l : List String) (x : String) : l.contains x = true ↔ x ∈ l := by
  induction l with
  | nil => simp
  | cons a t ih =>
    simp only [List.contains_cons, Bool.or_eq_true, beq_iff_eq, List.mem_cons, ih]

theorem mem_contentTypesInData (rows : List Row) (x : String) :
    x ∈ contentTypesInData rows ↔ x ∈ rows.map kindOf := by
  unfold contentTypesInData
  rw [← List.foldl_map kindOf addKey rows []]
  rw [mem_foldl_addKey]
  simp

theorem nodup_capsInDataRaw (rows : List Row) : (capsInDataRaw rows).Nodup := by
  unfold capsInDataRaw
  suffices h : ∀ (init : List String), init.Nodup →
      (rows.foldl (fun s r => ((rowKeys r).filter fun k => !(fixedFields.contains k)).foldl addKey s) init).Nodup by
    exact h [] (by simp)
  induction rows with
  | nil => intro init h; simpa
  | cons r t ih =>
    intro init h
    exact ih _ (nodup_foldl_addKey _ init h)

theorem nodup_discardSyn (s : List String) (a b : String) (h : s.Nodup) :
    (discardSyn s a b).Nodup := by
  unfold discardSyn
  by_cases hc : a ∈ s ∧ b ∈ s
  · rw [if_pos hc]
    exact h.erase b
  · rwa [if_neg hc]

theorem nodup_capsInData (rows : List Row) : (capsInData rows).Nodup := by
  unfold capsInData
  exact nodup_discardSyn _ _ _ (nodup_discardSyn _ _ _ (nodup_discardSyn _ _ _
    (nodup_discardSyn _ _ _ (nodup_discardSyn _ _ _ (nodup_capsInDataRaw rows)))))

theorem insertionSort_congr_perm (l1 l2 : List String) (h : List.Perm l1 l2) :
    List.insertionSort strLe l1 = List.insertionSort strLe l2 := by
  haveI : IsTotal String strLe := ⟨strLe_total⟩
  haveI : IsTrans String strLe := ⟨strLe_trans⟩
  haveI : IsAntisymm String strLe := ⟨strLe_antisymm⟩
  refine List.eq_of_perm_of_sorted ?_ (List.sorted_insertionSort strLe l1)
    (List.sorted_insertionSort strLe l2)
  exact ((List.perm_insertionSort strLe l1).trans h).trans (List.perm_insertionSort strLe l2).symm

end CsvSupportTheorems

section ClaimC7

/-- C7 (amended): the batch-kind selection picks workbook whenever some row
has kind workbook, and always picks a kind that occurs among the rows; when
the rows disagree and none is a workbook the selection is some occurring
kind, but which one is unspecified (Python set iteration order), not
necessarily the first-seen one. -/
theorem claim_C7_thm (rows : List Row) (k : String) (h : selectsKindB rows k = true) :
    k ∈ rows.map kindOf ∧
      ((rows.any fun r => kindOf r == "workbook") && !(k == "workbook")) = false := by
  unfold selectsKindB at h
  have hwb : (rows.any fun r => kindOf r == "workbook") = true ↔
      "workbook" ∈ contentTypesInData rows := by
    rw [mem_contentTypesInData]
    simp [List.any_eq_true]
  by_cases h1 : ((contentTypesInData rows).length == 1) = true
  · rw [if_pos h1] at h
    have hk : k ∈ contentTypesInData rows := (contains_iff_mem _ _).mp h
    refine ⟨(mem_contentTypesInData rows k).mp hk, ?_⟩
    cases hany : (rows.any fun r => kindOf r == "workbook") with
    | false => rfl
    | true =>
      have hwbmem : "workbook" ∈ contentTypesInData rows := hwb.mp hany
      have hlen : (contentTypesInData rows).length = 1 := by simpa using h1
      obtain ⟨a, ha⟩ := List.length_eq_one.mp hlen
      rw [ha] at hk hwbmem
      rw [List.mem_singleton] at hk hwbmem
      rw [hk.trans hwbmem.symm]
      simp
  · rw [if_neg h1] at h
    by_cases h2 : (contentTypesInData rows).contains "workbook" = true
    · rw [if_pos h2] at h
      have hk : k = "workbook" := by simpa using h
      subst hk
      refine ⟨?_, by simp⟩
      exact (mem_contentTypesInData rows _).mp ((contains_iff_mem _ _).mp h2)
    · rw [if_neg h2] at h
      have hk : k ∈ contentTypesInData rows := (contains_iff_mem _ _).mp h
      refine ⟨(mem_contentTypesInData rows k).mp hk, ?_⟩
      cases hany : (rows.any fun r => kindOf r == "workbook") with
      | false => rfl
      | true =>
        exact absurd ((contains_iff_mem _ _).mpr (hwb.mp hany)) h2

/-- Witness for claim C7: a single workbook row selects the workbook kind. -/
theorem claim_C7_witness :
    selectsKindB [[("content_type", "workbook")]] "workbook" = true ∧
    ("workbook" ∈ ([[("content_type", "workbook")]] : List Row).map kindOf ∧
      ((([[("content_type", "workbook")]] : List Row).any fun r => kindOf r == "workbook") &&
        !(("workbook" : String) == "workbook")) = false) :=
  ⟨by decide, claim_C7_thm [[("content_type", "workbook")]] "workbook" (by decide)⟩

/-- Counterexample to claim C7 as stated: for a batch mixing a view row
(first) and a flow row, the selection relation admits the kind flow although
the first-seen kind is view, because the source takes the first element of a
Python set whose iteration order is hash-dependent. -/
theorem claim_C7_counterexample :
    selectsKindB [[("content_type", "view")], [("content_type", "flow")]] "flow" = true ∧
    firstSeenKind [[("content_type", "view")], [("content_type", "flow")]] = some "view" ∧
    ("flow" : String) ≠ "view" := by
  refine ⟨by decide, by decide, by decide⟩

end ClaimC7

section ClaimC8

/-- C8: a capability column whose value is absent from a data row renders the
No setting sentinel, except the virtualconnection_Write column, which renders
the No API Endpoint sentinel instead. -/
theorem claim_C8_thm (r : Row) (cap : String) (h : dlookup r cap = none) :
    renderCell r cap =
      if cap = "virtualconnection_Write" then "No API Endpoint" else "No setting" := by
  unfold renderCell rowGet
  rw [h]
  by_cases hc : cap = "virtualconnection_Write"
  · rw [if_pos (⟨hc, rfl⟩ : cap = "virtualconnection_Write" ∧ (none : Option String).getD "" = ""),
      if_pos hc]
  · have hand : ¬(cap = "virtualconnection_Write" ∧ (none : Option String).getD "" = "") :=
      fun hh => hc hh.1
    rw [if_neg hand, if_pos (show (none : Option String).getD "" = "" from rfl), if_neg hc]

/-- Witness for claim C8: an empty row renders No setting for an ordinary
absent capability. -/
theorem claim_C8_witness :
    dlookup ([] : Row) "Read" = none ∧
    renderCell [] "Read" =
      (if ("Read" : String) = "virtualconnection_Write" then "No API Endpoint" else "No setting") :=
  ⟨rfl, claim_C8_thm [] "Read" rfl⟩

end ClaimC8

section ClaimC9

/-- C9: a fetch failure of any one default-permission slot is the same as
that slot contributing zero rules: the merged result is identical, so the
merge continues and the contributions of every other source are unaffected. -/
theorem claim_C9_thm (cp : String) (f : Fetches) (s : DefaultSlot) :
    getProjectPermissions cp (setSlot f s (Except.error ())) =
      getProjectPermissions cp (setSlot f s (Except.ok [])) := by
  cases s <;> rfl

end ClaimC9

section ClaimC10

/-- C10: the CSV projector returns without writing anything for an empty
batch of rows (the none result models that no file is created and no
exception is raised, the function being total). -/
theorem claim_C10_thm (k : String) : exportPermissionsToCsv [] k = none := rfl

end ClaimC10

section ClaimC6

/-- C6 (amended): the capability columns of a batch are exactly the canonical
ordering of the selected content-kind followed by the capability names
observed in the rows after synonym collapsing (CreateRefreshMetrics dropped
when ExtractRefresh is also observed, InheritedProjectLeader dropped when
VizqlDataApiAccess is also observed, likewise their workbook_ and datasource_
prefixed forms) that are absent from the canonical ordering, the latter
appended in sorted order; every canonical column appears even if no row uses
it, and every observed capability that survives the synonym collapsing
appears even if absent from the canonical list. -/
theorem claim_C6_thm (rows : List Row) (k : String) (c : String)
    (h : c ∈ capabilityOrder k ∨ c ∈ capsInData rows) :
    sortedCapabilities rows k =
      capabilityOrder k ++ List.insertionSort strLe
        ((capsInData rows).filter fun x => !((setOfList (capabilityOrder k)).contains x)) ∧
    c ∈ sortedCapabilities rows k := by
  have hnodA : (((capsInData rows).foldl addKey (setOfList (capabilityOrder k)))).Nodup :=
    nodup_foldl_addKey _ _ (nodup_setOfList _)
  have hpmem : ∀ x : String,
      (!((setOfList (capabilityOrder k)).contains x)) = true ↔ x ∉ capabilityOrder k := by
    intro x
    cases hb : (setOfList (capabilityOrder k)).contains x
    · simp only [hb, Bool.not_false]
      constructor
      · intro _ hmem
        have hcontra : (setOfList (capabilityOrder k)).contains x = true :=
          (contains_iff_mem _ x).mpr ((mem_setOfList _ x).mpr hmem)
        rw [hb] at hcontra
        cases hcontra
      · intro _
        trivial
    · simp only [hb, Bool.not_true]
      constructor
      · intro hfalse
        cases hfalse
      · intro hx
        exact absurd ((mem_setOfList _ x).mp ((contains_iff_mem _ x).mp hb)) hx
  have hperm : List.Perm
      ((((capsInData rows).foldl addKey (setOfList (capabilityOrder k))).filter
        fun x => !((setOfList (capabilityOrder k)).contains x)))
      ((capsInData rows).filter fun x => !((setOfList (capabilityOrder k)).contains x)) := by
    apply (List.perm_ext_iff_of_nodup (hnodA.filter _) ((nodup_capsInData rows).filter _)).mpr
    intro x
    simp only [List.mem_filter, mem_foldl_addKey]
    constructor
    · rintro ⟨hx | hx, hpx⟩
      · exact absurd ((mem_setOfList _ x).mp hx) ((hpmem x).mp hpx)
      · exact ⟨hx, hpx⟩
    · rintro ⟨hx, hpx⟩
      exact ⟨Or.inr hx, hpx⟩
  have heq : sortedCapabilities rows k =
      capabilityOrder k ++ List.insertionSort strLe
        ((capsInData rows).filter fun x => !((setOfList (capabilityOrder k)).contains x)) := by
    unfold sortedCapabilities
    rw [insertionSort_congr_perm _ _ hperm]
  refine ⟨heq, ?_⟩
  rcases h with hc | hc
  · rw [heq]
    exact List.mem_append.mpr (Or.inl hc)
  · by_cases ho : c ∈ capabilityOrder k
    · rw [heq]
      exact List.mem_append.mpr (Or.inl ho)
    · rw [heq]
      refine List.mem_append.mpr (Or.inr ?_)
      have hmf : c ∈ (capsInData rows).filter
          fun x => !((setOfList (capabilityOrder k)).contains x) :=
        List.mem_filter.mpr ⟨hc, (hpmem c).mpr ho⟩
      exact ((List.perm_insertionSort strLe _).mem_iff).mpr hmf

/-- Witness for claim C6: a one-row workbook batch with one capability
outside the canonical list.  The Zeta column is appended after the canonical
workbook columns and the canonical Read column appears although no row uses
it. -/
theorem claim_C6_witness :
    (("Zeta" : String) ∈ capabilityOrder "workbook" ∨
      ("Zeta" : String) ∈ capsInData [[("content_type", "workbook"), ("Zeta", "Allow")]]) ∧
    (sortedCapabilities [[("content_type", "workbook"), ("Zeta", "Allow")]] "workbook" =
      capabilityOrder "workbook" ++ List.insertionSort strLe
        ((capsInData [[("content_type", "workbook"), ("Zeta", "Allow")]]).filter
          fun x => !((setOfList (capabilityOrder "workbook")).contains x)) ∧
     ("Zeta" : String) ∈ sortedCapabilities [[("content_type", "workbook"), ("Zeta", "Allow")]]
        "workbook") :=
  ⟨by decide,
   claim_C6_thm [[("content_type", "workbook"), ("Zeta", "Allow")]] "workbook" "Zeta" (by decide)⟩

/-- Counterexample to claim C6 as stated: a workbook batch in which both
ExtractRefresh and CreateRefreshMetrics are observed drops the observed
capability CreateRefreshMetrics from the columns, so not every observed
capability appears. -/
theorem claim_C6_counterexample :
    (("CreateRefreshMetrics" : String) ∈
      capsInDataRaw [[("content_type", "workbook"), ("ExtractRefresh", "Allow"),
        ("CreateRefreshMetrics", "Allow")]]) ∧
    selectsKindB [[("content_type", "workbook"), ("ExtractRefresh", "Allow"),
        ("CreateRefreshMetrics", "Allow")]] "workbook" = true ∧
    (("CreateRefreshMetrics" : String) ∉
      sortedCapabilities [[("content_type", "workbook"), ("ExtractRefresh", "Allow"),
        ("CreateRefreshMetrics", "Allow")]] "workbook") := by
  refine ⟨by decide, by decide, by decide⟩

end ClaimC6

section ClaimC4Instances

/-- Witness for claim C4: a grantee with one raw project-level Read
capability and no templates anywhere. -/
theorem claim_C4_witness :
    noTemplateFor [⟨"group", "A", [("Read", "Allow")]⟩] [] [] [] [] [] [] ("group", "A") = true ∧
    outputCapLookup (mergeProject "" [⟨"group", "A", [("Read", "Allow")]⟩] [] [] [] [] [] [])
        ("group", "A") "Read" =
      c4SpecLookup [⟨"group", "A", [("Read", "Allow")]⟩] [] [] [] [] [] [] ("group", "A") "Read" :=
  ⟨by decide,
   claim_C4_thm "" [⟨"group", "A", [("Read", "Allow")]⟩] [] [] [] [] [] [] ("group", "A") "Read"
     (by decide)⟩

/-- Counterexample to claim C4 as stated: a template-free grantee whose only
observed namespaced capability is virtualconnection_Read nevertheless ends up
with a virtualconnection_Write entry, so its merged capability set is not the
union of the observed namespaced raw capabilities. -/
theorem claim_C4_counterexample :
    noTemplateFor [] [] [] [] [⟨"group", "G1", [("Read", "Allow")]⟩] [] [] ("group", "G1") = true ∧
    ((observedOf [] [] [] [] [⟨"group", "G1", [("Read", "Allow")]⟩] [] [] ("group", "G1")).map
      (·.1) = ["virtualconnection_Read"]) ∧
    outputCapLookup (mergeProject "" [] [] [] [] [⟨"group", "G1", [("Read", "Allow")]⟩] [] [])
        ("group", "G1") "virtualconnection_Write" = some "No API Endpoint" := by
  refine ⟨by decide, by decide, by decide⟩

end ClaimC4Instances
